import Mathlib

/-
Verification of the stochastic finite-difference solver engine
(1-D heat equation, 1-D wave equation, 2-D Gray-Scott reaction-diffusion)
of the stochlab repository, as a shallow embedding in Lean 4.

Conventions of the embedding:
* Real-valued floating point data of the heat and wave solvers is modelled by
  exact real numbers (`ℝ`); numpy transcendental functions become `Real.exp`,
  `Real.sin`, `Real.sqrt`.
* The reaction-diffusion solver is modelled over `FloatVal`, rational numbers
  extended with the IEEE special values `inf`, `-inf`, `nan` (exact arithmetic
  on finite values, IEEE propagation rules for the specials), because its
  divergence check is about non-finite values.
* `np.random` draws are modelled by oracle streams passed explicitly: the
  process-global generator becomes a stream `ℕ → ℝ` together with a cursor
  that each consumed sample advances; the seed-42 generator of the heat
  solver's "random" initial condition is a fixed stream shared by all calls.
* A Python `raise` becomes `Except.error`; an error therefore carries no
  frames (no partial output).
* Python `int()` truncates toward zero (`pyTrunc`), `np.floor` is `⌊·⌋`.
* Degenerate grids that make Python raise an IndexError/ValueError before any
  stepping (a nonpositive number of grid points) are collapsed into the
  single error value `Err.degenerateGrid`; the claims only quantify over
  parameter regions where the grid is nonempty.
-/

/-- Python `int()` applied to a real value: truncation toward zero. -/
noncomputable def pyTrunc (x : ℝ) : ℤ := if 0 ≤ x then ⌊x⌋ else ⌈x⌉

/-- Model of `np.linspace a b n`: `n` evenly spaced points from `a` to `b`
inclusive (real arithmetic). -/
noncomputable def linspace (a b : ℝ) (n : ℕ) : List ℝ :=
  if n = 1 then [a]
  else (List.range n).map fun i : ℕ => a + (b - a) * (i : ℝ) / ((n : ℝ) - 1)

/-- Model of `np.sum(u**2)`. -/
def sumSq (u : List ℝ) : ℝ := (u.map fun v => v ^ 2).sum

/-- Set the first and last entry of a vector to `0`
(`u[0] = 0.0; u[-1] = 0.0`). -/
def setEndsZero (u : List ℝ) : List ℝ :=
  (List.range u.length).map fun i =>
    if i = 0 ∨ i = u.length - 1 then 0 else u.getD i 0

/-- Run `count` iterations of a step function that also receives the current
step number, starting at step number `start`. -/
def runSteps {σ : Type} (f : ℕ → σ → σ) : ℕ → ℕ → σ → σ
  | _, 0, s => s
  | n, count + 1, s => runSteps f (n + 1) count (f n s)

/-- Errors raised by the heat and wave solvers (each `ValueError` of the
source becomes one constructor; payloads record the data interpolated into
the message). -/
inductive Err where
  | nonPositiveGrid : Err
  | nonPositiveTSteps : Err
  | stability (r : ℝ) : Err
  | initStateMismatch (got expected : ℕ) : Err
  | unknownInit (kind : String) : Err
  | unsupportedBC (bc : String) : Err
  | degenerateGrid : Err
  | zeroDivision : Err

/- ## Heat solver (`backend/app/solvers/heat_fd.py`) -/

/-- Parameter record of `solve_heat` (the `return_as_list` and
`progress_callback` parameters only affect presentation/reporting and are not
modelled). -/
structure HeatParams where
  alpha : ℝ
  dt : ℝ
  dx : ℝ
  t_steps : ℤ
  domain : ℝ := 1
  init : String := "pulse"
  init_state : Option (List ℝ) := none
  bc : String := "dirichlet"
  sigma : ℝ := 0
  snapshot_interval : ℤ := 1

/-- Model of `_init_condition(x, kind)`.  `g42` is the fixed stream drawn by
`np.random.default_rng(42)` (a fixed seed, hence the same stream on every
call). -/
noncomputable def heatInitCondition (x : List ℝ) (kind : String) (g42 : ℕ → ℝ) :
    Except Err (List ℝ) :=
  if kind = "pulse" then
    let center := 0.5 * (x.getD 0 0 + x.getD (x.length - 1) 0)
    let w0 := 0.05 * (x.getD (x.length - 1) 0 - x.getD 0 0)
    -- Python `or`: a zero width falls back to the literal 0.05
    let width := if w0 = 0 then 0.05 else w0
    .ok (x.map fun t => Real.exp (-((t - center) ^ 2) / (2 * width ^ 2)))
  else if kind = "sin" then
    .ok (x.map fun t =>
      Real.sin (2 * Real.pi * (t - x.getD 0 0) /
        (x.getD (x.length - 1) 0 - x.getD 0 0)))
  else if kind = "random" then
    .ok ((List.range x.length).map fun i => 0.1 * g42 i)
  else
    .error (.unknownInit kind)

/-- Mutable loop state of `solve_heat`: current field, number of ambient
random samples consumed so far, recorded frames and energies. -/
structure HeatState where
  u : List ℝ
  ctr : ℕ
  frames : List (List ℝ)
  energy : List ℝ

/-- One deterministic interior update
`u_next[1:-1] = u[1:-1] + alpha*dt*(u[2:] - 2*u[1:-1] + u[:-2])/(dx*dx)`
with the Dirichlet boundary zeroing folded in (the source zeroes the
boundary entries of `u_next` in the same iteration, and `u_next` holds `0`
there beforehand). -/
noncomputable def heatStepU (alpha dt dx : ℝ) (u : List ℝ) : List ℝ :=
  (List.range u.length).map fun i =>
    if i = 0 ∨ i = u.length - 1 then 0
    else u.getD i 0 +
      alpha * dt * (u.getD (i + 1) 0 - 2 * u.getD i 0 + u.getD (i - 1) 0) /
        (dx * dx)

/-- Euler–Maruyama noise on the interior points:
`u_next[1:-1] += sigma * sqrt(dt) * standard_normal(nx-2)`; the ambient
stream `g` is read at positions `ctr, ctr+1, …` (one sample per interior
point). -/
noncomputable def heatNoise (sigma dt : ℝ) (g : ℕ → ℝ) (ctr : ℕ)
    (v : List ℝ) : List ℝ :=
  (List.range v.length).map fun i =>
    if i = 0 ∨ i = v.length - 1 then v.getD i 0
    else v.getD i 0 + sigma * Real.sqrt dt * g (ctr + (i - 1))

/-- One full iteration of the time loop of `solve_heat` at step number `n`:
interior update, optional noise, boundary zeroing, snapshot decimation. -/
noncomputable def heatStep (alpha dt dx sigma : ℝ) (g : ℕ → ℝ) (si : ℕ)
    (n : ℕ) (s : HeatState) : HeatState :=
  let v := heatStepU alpha dt dx s.u
  let v2 := if 0 < sigma then heatNoise sigma dt g s.ctr v else v
  let c2 := if 0 < sigma then s.ctr + (s.u.length - 2) else s.ctr
  { u := v2
    ctr := c2
    frames := if n % si = 0 then s.frames ++ [v2] else s.frames
    energy := if n % si = 0 then s.energy ++ [sumSq v2 * dx] else s.energy }

/-- Result of a successful `solve_heat` call (`{"frames": …, "energy": …}`),
together with the number of ambient random samples the call consumed. -/
structure HeatOut where
  frames : List (List ℝ)
  energy : List ℝ
  rngUsed : ℕ

/-- The time loop of `solve_heat`: the initial frame and energy are recorded
before stepping, then `nsteps` iterations run with step numbers `1…nsteps`. -/
noncomputable def heatRun (alpha dt dx sigma : ℝ) (g : ℕ → ℝ) (si : ℕ)
    (nsteps : ℕ) (u0 : List ℝ) : HeatOut :=
  let s := runSteps (heatStep alpha dt dx sigma g si) 1 nsteps
    ⟨u0, 0, [u0], [sumSq u0 * dx]⟩
  ⟨s.frames, s.energy, s.ctr⟩

/-- Model of `solve_heat`.  `g42` is the seed-42 stream used by the "random"
initial condition, `g` the ambient global `np.random` stream. -/
noncomputable def solveHeat (g42 g : ℕ → ℝ) (p : HeatParams) :
    Except Err HeatOut :=
  if p.dx ≤ 0 ∨ p.dt ≤ 0 then .error .nonPositiveGrid
  else if p.t_steps ≤ 0 then .error .nonPositiveTSteps
  else if p.alpha * p.dt / (p.dx * p.dx) > 0.5 then
    .error (.stability (p.alpha * p.dt / (p.dx * p.dx)))
  else if ⌊p.domain / p.dx⌋ + 1 ≤ 0 then .error .degenerateGrid
  else
    let nx := (⌊p.domain / p.dx⌋ + 1).toNat
    let x := linspace 0 p.domain nx
    (match p.init_state with
      | some st =>
        if st.length = nx then Except.ok st
        else Except.error (Err.initStateMismatch st.length nx)
      | none => heatInitCondition x p.init g42).bind fun u0 =>
    if p.bc = "dirichlet" then
      let si := if p.snapshot_interval ≤ 0 then 1 else p.snapshot_interval.toNat
      .ok (heatRun p.alpha p.dt p.dx p.sigma g si p.t_steps.toNat
        (setEndsZero u0))
    else .error (.unsupportedBC p.bc)

/- ## Wave solver (`backend/app/solvers/wave_fd.py`) -/

/-- Parameter record of `solve_wave_equation`. -/
structure WaveParams where
  c : ℝ
  damping : ℝ
  sigma : ℝ
  T : ℝ
  dt : ℝ
  dx : ℝ
  domain_len : ℝ := 10
  init_type : String := "pulse"
  current_u : Option (List ℝ) := none
  current_u_prev : Option (List ℝ) := none

/-- Copy a caller-supplied list into a zero vector of length `n`
(`u[:n_copy] = src[:n_copy]` with `n_copy = min(n, len(src))`: a
shape-mismatched resume state is silently truncated or zero-padded). -/
def takeIntoZeros (n : ℕ) (src : List ℝ) : List ℝ :=
  (List.range n).map fun i => if i < src.length then src.getD i 0 else 0

/-- The plucked-string initial condition:
`u[:center] = linspace(0,1,center); u[center:] = linspace(1,0,nx-center)`. -/
noncomputable def waveStringInit (nx : ℕ) : List ℝ :=
  linspace 0 1 (nx / 2) ++ linspace 1 0 (nx - nx / 2)

/-- Initial `u_curr` of the wave solver, by the source's branch order: if
both resume fields are supplied they are copied with min-length truncation
(no shape error), otherwise the named initial condition (an unknown
`init_type` leaves the zero field). -/
noncomputable def waveInitCurr (p : WaveParams) (x : List ℝ) (nx : ℕ) :
    List ℝ :=
  match p.current_u, p.current_u_prev with
  | some cu, some _ => takeIntoZeros nx cu
  | _, _ =>
    if p.init_type = "pulse" then
      x.map fun t => Real.exp (-((t - p.domain_len / 2) ^ 2) / 0.5)
    else if p.init_type = "string" then waveStringInit nx
    else List.replicate nx 0

/-- Initial `u_prev` of the wave solver.  Note the source guards the
velocity-consistent assignment `u_prev[:] = u_curr[:]` by
`if current_u is None` only: when `current_u` is supplied but
`current_u_prev` is not, `u_prev` stays all zeros. -/
noncomputable def waveInitPrev (p : WaveParams) (uCurr : List ℝ) (nx : ℕ) :
    List ℝ :=
  match p.current_u, p.current_u_prev with
  | some _, some cup => takeIntoZeros nx cup
  | none, _ => uCurr
  | some _, none => List.replicate nx 0

/-- Mutable loop state of `solve_wave_equation`. -/
structure WaveState where
  uCurr : List ℝ
  uPrev : List ℝ
  ctr : ℕ
  frames : List (List ℝ)
  energy : List ℝ

/-- The new field `u_next` of one leapfrog iteration:
`u_next = (2*u_curr - u_prev*(1-k/2) + r2*d2u + sigma*noise*dt^2) / (1+k/2)`
followed by `u_next[0] = 0; u_next[-1] = 0` (the boundary entries are
overwritten after the division, so only the final zero matters). -/
noncomputable def waveNext (r2 k sigma dt : ℝ) (noise : ℕ → ℝ)
    (uCurr uPrev : List ℝ) : List ℝ :=
  (List.range uCurr.length).map fun i =>
    if i = 0 ∨ i = uCurr.length - 1 then 0
    else
      let d2u := uCurr.getD (i + 1) 0 - 2 * uCurr.getD i 0 +
        uCurr.getD (i - 1) 0
      (2 * uCurr.getD i 0 - uPrev.getD i 0 * (1 - k / 2) + r2 * d2u +
        sigma * noise i * dt ^ 2) / (1 + k / 2)

/-- The per-step energy diagnostic of the wave solver:
`vel = (u_next - u_prev)/(2*dt)`, `strain = diff(u_curr)/dx`,
`0.5*sum(vel[1:-1]**2)*dx + 0.5*c^2*sum(strain**2)*dx`. -/
noncomputable def waveEnergy (c dt dx : ℝ) (uNext uPrev uCurr : List ℝ) : ℝ :=
  let nx := uNext.length
  let vel := (List.range nx).map fun i =>
    (uNext.getD i 0 - uPrev.getD i 0) / (2 * dt)
  let strain := (List.range (nx - 1)).map fun i =>
    (uCurr.getD (i + 1) 0 - uCurr.getD i 0) / dx
  0.5 * sumSq (vel.drop 1 |>.dropLast) * dx + 0.5 * c ^ 2 * sumSq strain * dx

/-- One iteration of the wave time loop: the noise vector is drawn (one
sample per grid point) only when `sigma > 0`, the energy diagnostic is
appended, the buffers rotate, and the new current field is recorded (the
wave solver records every step, no decimation). -/
noncomputable def waveStep (r2 k c sigma dt dx : ℝ) (g : ℕ → ℝ)
    (_t : ℕ) (s : WaveState) : WaveState :=
  let nx := s.uCurr.length
  let noise : ℕ → ℝ := if 0 < sigma then (fun i => g (s.ctr + i)) else fun _ => 0
  let c2 := if 0 < sigma then s.ctr + nx else s.ctr
  let uNext := waveNext r2 k sigma dt noise s.uCurr s.uPrev
  { uCurr := uNext
    uPrev := s.uCurr
    ctr := c2
    frames := s.frames ++ [uNext]
    energy := s.energy ++ [waveEnergy c dt dx uNext s.uPrev s.uCurr] }

/-- Result of a successful `solve_wave_equation` call. -/
structure WaveOut where
  x : List ℝ
  frames : List (List ℝ)
  energy : List ℝ
  rngUsed : ℕ

/-- Model of `solve_wave_equation`.  The grid (`nx`, `nt`, `x`) is built
before the CFL check, matching the source order; a `dx = 0` or `dt = 0`
input raises `ZeroDivisionError` in Python before the CFL check and is
modelled by `Err.zeroDivision`. -/
noncomputable def solveWave (g : ℕ → ℝ) (p : WaveParams) :
    Except Err WaveOut :=
  if p.dx = 0 ∨ p.dt = 0 then .error .zeroDivision
  else if pyTrunc (p.domain_len / p.dx) + 1 ≤ 0 then .error .degenerateGrid
  else
    let nx := (pyTrunc (p.domain_len / p.dx) + 1).toNat
    let nt := (pyTrunc (p.T / p.dt)).toNat
    let x := linspace 0 p.domain_len nx
    if p.c * p.dt / p.dx > 1 then .error (.stability (p.c * p.dt / p.dx))
    else
      let u0 := waveInitCurr p x nx
      let uprev0 := waveInitPrev p u0 nx
      let r2 := (p.c * p.dt / p.dx) ^ 2
      let k := p.damping * p.dt
      let s := runSteps (waveStep r2 k p.c p.sigma p.dt p.dx g) 0 nt
        ⟨u0, uprev0, 0, [u0], []⟩
      .ok ⟨x, s.frames, s.energy, s.ctr⟩

/- ## Float values with IEEE specials, for the reaction-diffusion solver -/

/-- A numpy double, idealized: exact rational arithmetic on finite values,
IEEE-754 propagation rules for `inf`, `-inf` and `nan` in the operations the
reaction-diffusion solver performs.  The divergence behaviour the solver's
finiteness check is about (division by zero producing infinities and NaNs)
is modelled faithfully. -/
inductive FloatVal where
  | fin (q : ℚ) : FloatVal
  | inf : FloatVal
  | ninf : FloatVal
  | nan : FloatVal
deriving DecidableEq

/-- IEEE negation. -/
def FloatVal.neg : FloatVal → FloatVal
  | fin q => fin (-q)
  | inf => ninf
  | ninf => inf
  | nan => nan

/-- IEEE addition (exact on finite values). -/
def FloatVal.add : FloatVal → FloatVal → FloatVal
  | nan, _ => nan
  | _, nan => nan
  | fin a, fin b => fin (a + b)
  | fin _, inf => inf
  | fin _, ninf => ninf
  | inf, fin _ => inf
  | ninf, fin _ => ninf
  | inf, inf => inf
  | inf, ninf => nan
  | ninf, inf => nan
  | ninf, ninf => ninf

/-- IEEE subtraction. -/
def FloatVal.sub (a b : FloatVal) : FloatVal := a.add b.neg

/-- IEEE multiplication (`inf * 0 = nan`). -/
def FloatVal.mul : FloatVal → FloatVal → FloatVal
  | nan, _ => nan
  | _, nan => nan
  | fin a, fin b => fin (a * b)
  | fin a, inf => if 0 < a then inf else if a < 0 then ninf else nan
  | fin a, ninf => if 0 < a then ninf else if a < 0 then inf else nan
  | inf, fin a => if 0 < a then inf else if a < 0 then ninf else nan
  | ninf, fin a => if 0 < a then ninf else if a < 0 then inf else nan
  | inf, inf => inf
  | inf, ninf => ninf
  | ninf, inf => ninf
  | ninf, ninf => inf

/-- IEEE division; the zero denominator cases (`x/0 = ±inf`, `0/0 = nan`)
are what the divergence counterexamples exercise (Python's float `0.0` is
`+0`). -/
def FloatVal.div : FloatVal → FloatVal → FloatVal
  | nan, _ => nan
  | _, nan => nan
  | fin a, fin b =>
    if b = 0 then (if 0 < a then inf else if a < 0 then ninf else nan)
    else fin (a / b)
  | fin _, inf => fin 0
  | fin _, ninf => fin 0
  | inf, fin b => if 0 ≤ b then inf else ninf
  | ninf, fin b => if 0 ≤ b then ninf else inf
  | inf, inf => nan
  | inf, ninf => nan
  | ninf, inf => nan
  | ninf, ninf => nan

instance : Add FloatVal := ⟨FloatVal.add⟩

instance : Sub FloatVal := ⟨FloatVal.sub⟩

instance : Mul FloatVal := ⟨FloatVal.mul⟩

instance : Div FloatVal := ⟨FloatVal.div⟩

/-- Model of `np.isnan` on one value. -/
def FloatVal.isNan : FloatVal → Bool
  | nan => true
  | _ => false

/-- A value is finite when it is neither an infinity nor `nan`
(`np.isfinite`). -/
def FloatVal.isFinite : FloatVal → Bool
  | fin _ => true
  | _ => false

/- ## Reaction-diffusion solver (`backend/app/solvers/reaction_diffusion.py`) -/

/-- Python `int()` applied to an exact rational: truncation toward zero. -/
def pyTruncQ (x : ℚ) : ℤ := if 0 ≤ x then ⌊x⌋ else ⌈x⌉

/-- A 2-D field, as a function of the two indices (only indices below the
grid dimensions are ever read). -/
def RDGrid : Type := ℕ → ℕ → FloatVal

/-- Parameter record of `solve_reaction_diffusion` (`domain_len` is accepted
by the source but never read). -/
structure RDParams where
  Du : ℚ
  Dv : ℚ
  F : ℚ
  k : ℚ
  sigma : ℚ
  T : ℚ
  dt : ℚ
  dx : ℚ
  domain_len : ℚ := 50
  init_type : String := "random_center"
  width : ℕ := 64
  height : ℕ := 64
  current_u : Option (List (List ℚ)) := none
  current_v : Option (List (List ℚ)) := none

/-- Errors of the reaction-diffusion solver. -/
inductive RDErr where
  | nanUnstable : RDErr
  | zeroDivision : RDErr
deriving DecidableEq

/-- Whether `np.array(m).shape == (nx, ny)` for a rectangular nested list. -/
def rdShapeOk (m : List (List ℚ)) (nx ny : ℕ) : Bool :=
  m.length = nx && m.all fun row => row.length = ny

/-- A caller-supplied nested list as a field. -/
def rdToGrid (m : List (List ℚ)) : RDGrid :=
  fun i j => FloatVal.fin ((m.getD i []).getD j 0)

/-- Python slice-bound normalisation for a (possibly negative) index `i` of
an axis of length `n`. -/
def pySliceIdx (n : ℕ) (i : ℤ) : ℕ :=
  (min (max 0 (if i < 0 then (n : ℤ) + i else i)) (n : ℤ)).toNat

/-- One iteration of the `spots` initial condition:
`U[rx-2:rx+2, ry-2:ry+2] = 0.5; V[…] = 0.25`. -/
def rdApplySpot (nx ny rx ry : ℕ) (UV : RDGrid × RDGrid) : RDGrid × RDGrid :=
  let r0 := pySliceIdx nx ((rx : ℤ) - 2)
  let r1 := pySliceIdx nx ((rx : ℤ) + 2)
  let c0 := pySliceIdx ny ((ry : ℤ) - 2)
  let c1 := pySliceIdx ny ((ry : ℤ) + 2)
  (fun i j => if r0 ≤ i ∧ i < r1 ∧ c0 ≤ j ∧ j < c1 then .fin (1/2) else UV.1 i j,
   fun i j => if r0 ≤ i ∧ i < r1 ∧ c0 ≤ j ∧ j < c1 then .fin (1/4) else UV.2 i j)

/-- Initial fields of the reaction-diffusion solver.  The base state is
`U = np.ones`, `V = np.zeros`.  When both resume fields are supplied, a
shape-matched pair is adopted and a mismatched pair is silently ignored
(`pass`), and — because the initial-condition selectors are `elif` branches
of the resume test — the named initial condition is then *not* applied
either: the solver proceeds from the base state.  `omU`/`omV` are the
`np.random.normal` draw oracles of the perturbation initial conditions and
`spotsO` the `np.random.randint` oracle of the `spots` branch. -/
def rdInit (p : RDParams) (omU omV : ℕ → ℕ → ℚ) (spotsO : ℕ → ℕ × ℕ) :
    RDGrid × RDGrid :=
  let nx := p.width
  let ny := p.height
  let baseU : RDGrid := fun _ _ => .fin 1
  let baseV : RDGrid := fun _ _ => .fin 0
  match p.current_u, p.current_v with
  | some cu, some cv =>
    if rdShapeOk cu nx ny && rdShapeOk cv nx ny then (rdToGrid cu, rdToGrid cv)
    else (baseU, baseV)
  | _, _ =>
    if p.init_type = "random_center" then
      let cx := nx / 2
      let cy := ny / 2
      let r := max 1 (min 10 (min (nx / 4) (ny / 4)))
      let xs := cx - r
      let xe := min nx (cx + r)
      let ys := cy - r
      let ye := min ny (cy + r)
      (fun i j => if xs ≤ i ∧ i < xe ∧ ys ≤ j ∧ j < ye then
          .fin (1/2 + omU (i - xs) (j - ys)) else baseU i j,
       fun i j => if xs ≤ i ∧ i < xe ∧ ys ≤ j ∧ j < ye then
          .fin (1/4 + omV (i - xs) (j - ys)) else baseV i j)
    else if p.init_type = "random_everywhere" then
      (fun i j => .fin (1 + omU i j), fun i j => .fin (0 + omV i j))
    else if p.init_type = "spots" then
      (List.range 10).foldl
        (fun UV t => rdApplySpot nx ny (spotsO t).1 (spotsO t).2 UV)
        (baseU, baseV)
    else (baseU, baseV)

/-- The periodic 5-point Laplacian
`(roll(Z,1,0) + roll(Z,-1,0) + roll(Z,1,1) + roll(Z,-1,1) - 4*Z)/dx**2`,
with numpy's left-associated evaluation order. -/
def rdLap (dx : ℚ) (nx ny : ℕ) (Z : RDGrid) : RDGrid := fun i j =>
  (Z ((i + nx - 1) % nx) j + Z ((i + 1) % nx) j +
    Z i ((j + ny - 1) % ny) + Z i ((j + 1) % ny) -
    FloatVal.fin 4 * Z i j) / FloatVal.fin (dx * dx)

/-- One forward-Euler step of the Gray-Scott system at step index `t`:
both updates read the pre-step fields.  `nuU`/`nuV` are the standard-normal
loop-noise oracles and `sqrtQ` models float `np.sqrt` on the (finite) time
step. -/
def rdStep (p : RDParams) (nuU nuV : ℕ → ℕ → ℕ → ℚ) (sqrtQ : ℚ → ℚ)
    (t : ℕ) (UV : RDGrid × RDGrid) : RDGrid × RDGrid :=
  let nx := p.width
  let ny := p.height
  let U := UV.1
  let V := UV.2
  let Lu := rdLap p.dx nx ny U
  let Lv := rdLap p.dx nx ny V
  let uv2 : RDGrid := fun i j => U i j * (V i j * V i j)
  let noiseU : RDGrid :=
    if 0 < p.sigma then fun i j => .fin (nuU t i j * p.sigma * sqrtQ p.dt)
    else fun _ _ => .fin 0
  let noiseV : RDGrid :=
    if 0 < p.sigma then fun i j => .fin (nuV t i j * p.sigma * sqrtQ p.dt)
    else fun _ _ => .fin 0
  let du : RDGrid := fun i j =>
    FloatVal.fin p.Du * Lu i j - uv2 i j +
      FloatVal.fin p.F * (FloatVal.fin 1 - U i j) + noiseU i j
  let dv : RDGrid := fun i j =>
    FloatVal.fin p.Dv * Lv i j + uv2 i j -
      FloatVal.fin (p.F + p.k) * V i j + noiseV i j
  (fun i j => U i j + du i j * FloatVal.fin p.dt,
   fun i j => V i j + dv i j * FloatVal.fin p.dt)

/-- Model of `np.any(np.isnan(Z))` over the grid. -/
def hasNanIn (nx ny : ℕ) (Z : RDGrid) : Bool :=
  (List.range nx).any fun i => (List.range ny).any fun j => (Z i j).isNan

/-- Read the grid out as nested lists (`Z.tolist()`). -/
def gridToLists (nx ny : ℕ) (Z : RDGrid) : List (List FloatVal) :=
  (List.range nx).map fun i => (List.range ny).map fun j => Z i j

/-- Mutable loop state of `solve_reaction_diffusion`. -/
structure RDState where
  U : RDGrid
  V : RDGrid
  tvals : List ℚ
  histU : List (List (List FloatVal))
  histV : List (List (List FloatVal))

/-- The stepping loop: after each step the `np.isnan` check runs on `U`
only (not on `V`, and infinities pass it); on detection the whole call
fails, discarding every recorded frame.  Recording happens after the step,
when `i % steps_per_frame == 0`. -/
def rdLoop (step : ℕ → RDGrid × RDGrid → RDGrid × RDGrid)
    (nx ny spf : ℕ) (dtq : ℚ) :
    ℕ → ℕ → RDState → Except RDErr RDState
  | _, 0, s => .ok s
  | i, rem + 1, s =>
    let UV2 := step i (s.U, s.V)
    if hasNanIn nx ny UV2.1 then .error .nanUnstable
    else
      rdLoop step nx ny spf dtq (i + 1) rem
        { U := UV2.1
          V := UV2.2
          tvals := if i % spf = 0 then s.tvals ++ [(i : ℚ) * dtq] else s.tvals
          histU := if i % spf = 0 then s.histU ++ [gridToLists nx ny UV2.1]
            else s.histU
          histV := if i % spf = 0 then s.histV ++ [gridToLists nx ny UV2.2]
            else s.histV }

/-- Result of a successful `solve_reaction_diffusion` call (the echoed
`parameters` dictionary is not modelled). -/
structure RDOut where
  t : List ℚ
  U : List (List (List FloatVal))
  V : List (List (List FloatVal))
deriving DecidableEq

/-- Step count of a reaction-diffusion call (`nt = int(T / dt)`). -/
def rdNt (p : RDParams) : ℕ := (pyTruncQ (p.T / p.dt)).toNat

/-- Frame decimation stride of a reaction-diffusion call
(`steps_per_frame = max(1, int(nt / 50))`, about 50 output frames). -/
def rdSpf (p : RDParams) : ℕ := max 1 (rdNt p / 50)

/-- Model of `solve_reaction_diffusion`.  `nt = int(T/dt)` raises
`ZeroDivisionError` when `dt = 0`. -/
def solveRD (p : RDParams) (omU omV : ℕ → ℕ → ℚ) (spotsO : ℕ → ℕ × ℕ)
    (nuU nuV : ℕ → ℕ → ℕ → ℚ) (sqrtQ : ℚ → ℚ) : Except RDErr RDOut :=
  if p.dt = 0 then .error .zeroDivision
  else
    (rdLoop (rdStep p nuU nuV sqrtQ) p.width p.height (rdSpf p) p.dt 0
        (rdNt p)
        ⟨(rdInit p omU omV spotsO).1, (rdInit p omU omV spotsO).2,
          [], [], []⟩).map
      fun s => ⟨s.tvals, s.histU, s.histV⟩

/- ## Helper lemmas -/

theorem linspace_length (a b : ℝ) (n : ℕ) : (linspace a b n).length = n := by
  unfold linspace
  split
  · simp [*]
  · rw [List.length_map, List.length_range]

theorem linspace_head (a b : ℝ) (n : ℕ) (hn : n ≠ 0) :
    (linspace a b n).getD 0 0 = a := by
  unfold linspace
  split
  · simp
  · match n, hn with
    | m + 1, _ =>
      rw [List.range_succ_eq_map]
      simp

theorem setEndsZero_length (u : List ℝ) : (setEndsZero u).length = u.length := by
  simp [setEndsZero]

theorem pyTrunc_nonneg (x : ℝ) (hx : 0 ≤ x) : 0 ≤ pyTrunc x := by
  unfold pyTrunc
  rw [if_pos hx]
  exact Int.floor_nonneg.mpr hx

/- ## Claim C1 -/

/-- C1: every heat run with `alpha*dt/dx^2 > 0.5` and every wave run with
`c*dt/dx > 1.0` fails with a stability error carrying the computed ratio,
before any stepping, and produces no frames (the error result carries no
partial output). -/
theorem claim_C1_stability_gate :
    (∀ (g42 g : ℕ → ℝ) (p : HeatParams), 0 < p.dx → 0 < p.dt →
      0 < p.t_steps → 0.5 < p.alpha * p.dt / (p.dx * p.dx) →
      solveHeat g42 g p =
        .error (.stability (p.alpha * p.dt / (p.dx * p.dx)))) ∧
    (∀ (g : ℕ → ℝ) (p : WaveParams), 0 < p.dx → 0 < p.dt →
      0 ≤ p.domain_len → 1 < p.c * p.dt / p.dx →
      solveWave g p = .error (.stability (p.c * p.dt / p.dx))) := by
  constructor
  · intro g42 g p hdx hdt hts hr
    unfold solveHeat
    rw [if_neg (by push_neg; exact ⟨hdx, hdt⟩), if_neg (by omega), if_pos hr]
  · intro g p hdx hdt hL hr
    have h1 : ¬(p.dx = 0 ∨ p.dt = 0) := by
      push_neg
      exact ⟨ne_of_gt hdx, ne_of_gt hdt⟩
    have h2 : ¬(pyTrunc (p.domain_len / p.dx) + 1 ≤ 0) := by
      have := pyTrunc_nonneg (p.domain_len / p.dx) (div_nonneg hL hdx.le)
      omega
    simp only [solveWave, if_neg h1, if_neg h2, if_pos hr]

def heatP1 : HeatParams := { alpha := 1, dt := 1, dx := 1, t_steps := 1 }

def waveP1 : WaveParams :=
  { c := 2, damping := 0, sigma := 0, T := 1, dt := 1, dx := 1 }

/-- Witness for C1 at concrete unstable parameters. -/
theorem claim_C1_witness :
    solveHeat (fun _ => 0) (fun _ => 0) heatP1 =
      .error (.stability (1 * 1 / (1 * 1))) ∧
    solveWave (fun _ => 0) waveP1 = .error (.stability (2 * 1 / 1)) := by
  constructor
  · exact claim_C1_stability_gate.1 (fun _ => 0) (fun _ => 0) heatP1
      (by norm_num [heatP1]) (by norm_num [heatP1]) (by norm_num [heatP1])
      (by norm_num [heatP1])
  · exact claim_C1_stability_gate.2 (fun _ => 0) waveP1
      (by norm_num [waveP1]) (by norm_num [waveP1]) (by norm_num [waveP1])
      (by norm_num [waveP1])

/- ## Heat loop decomposition -/

/-- Evolution of the (field, cursor) pair over one heat iteration
(the recording side effects stripped away). -/
noncomputable def heatEvol (alpha dt dx sigma : ℝ) (g : ℕ → ℝ)
    (uc : List ℝ × ℕ) : List ℝ × ℕ :=
  let v := heatStepU alpha dt dx uc.1
  (if 0 < sigma then heatNoise sigma dt g uc.2 v else v,
   if 0 < sigma then uc.2 + (uc.1.length - 2) else uc.2)

/-- The frames the heat loop records during `count` iterations whose step
numbers start at `n`. -/
noncomputable def heatAux (alpha dt dx sigma : ℝ) (g : ℕ → ℝ) (si : ℕ) :
    ℕ → ℕ → List ℝ × ℕ → List (List ℝ)
  | _, 0, _ => []
  | n, count + 1, uc =>
    let uc2 := heatEvol alpha dt dx sigma g uc
    (if n % si = 0 then [uc2.1] else []) ++
      heatAux alpha dt dx sigma g si (n + 1) count uc2

theorem heat_runSteps_decomp (alpha dt dx sigma : ℝ) (g : ℕ → ℝ) (si : ℕ) :
    ∀ (count n : ℕ) (s : HeatState),
    runSteps (heatStep alpha dt dx sigma g si) n count s =
      ⟨((heatEvol alpha dt dx sigma g)^[count] (s.u, s.ctr)).1,
       ((heatEvol alpha dt dx sigma g)^[count] (s.u, s.ctr)).2,
       s.frames ++ heatAux alpha dt dx sigma g si n count (s.u, s.ctr),
       s.energy ++
         (heatAux alpha dt dx sigma g si n count (s.u, s.ctr)).map
           fun w => sumSq w * dx⟩ := by
  intro count
  induction count with
  | zero =>
    intro n s
    simp [runSteps, heatAux]
  | succ count ih =>
    intro n s
    rw [runSteps, ih]
    have hu : (heatStep alpha dt dx sigma g si n s).u =
        (heatEvol alpha dt dx sigma g (s.u, s.ctr)).1 := by
      simp [heatStep, heatEvol]
    have hc : (heatStep alpha dt dx sigma g si n s).ctr =
        (heatEvol alpha dt dx sigma g (s.u, s.ctr)).2 := by
      simp [heatStep, heatEvol]
    have hf : (heatStep alpha dt dx sigma g si n s).frames =
        s.frames ++ (if n % si = 0 then
          [(heatEvol alpha dt dx sigma g (s.u, s.ctr)).1] else []) := by
      by_cases h : n % si = 0 <;> simp [heatStep, heatEvol, h]
    have he : (heatStep alpha dt dx sigma g si n s).energy =
        s.energy ++ (if n % si = 0 then
          [sumSq (heatEvol alpha dt dx sigma g (s.u, s.ctr)).1 * dx]
          else []) := by
      by_cases h : n % si = 0 <;> simp [heatStep, heatEvol, h]
    rw [hu, hc, hf, he, Function.iterate_succ_apply]
    conv_rhs => rw [heatAux]
    simp [List.append_assoc, apply_ite (List.map fun w => sumSq w * dx)]

theorem heatStepU_length (alpha dt dx : ℝ) (u : List ℝ) :
    (heatStepU alpha dt dx u).length = u.length := by
  simp [heatStepU]

theorem heatNoise_length (sigma dt : ℝ) (g : ℕ → ℝ) (ctr : ℕ) (v : List ℝ) :
    (heatNoise sigma dt g ctr v).length = v.length := by
  simp [heatNoise]

theorem heatEvol_fst_length (alpha dt dx sigma : ℝ) (g : ℕ → ℝ)
    (uc : List ℝ × ℕ) :
    (heatEvol alpha dt dx sigma g uc).1.length = uc.1.length := by
  unfold heatEvol
  by_cases h : 0 < sigma <;>
    simp [h, heatNoise_length, heatStepU_length]

theorem heatAux_length (alpha dt dx sigma : ℝ) (g : ℕ → ℝ) (si : ℕ) :
    ∀ (count n : ℕ) (uc : List ℝ × ℕ),
    (heatAux alpha dt dx sigma g si n count uc).length =
      ((List.range' n count).filter fun m => decide (m % si = 0)).length := by
  intro count
  induction count with
  | zero => intro n uc; simp [heatAux]
  | succ count ih =>
    intro n uc
    rw [heatAux, List.range'_succ]
    by_cases h : n % si = 0 <;>
      simp [h, ih]

theorem multiples_count (si : ℕ) :
    ∀ N : ℕ,
    ((List.range' 1 N).filter fun m => decide (m % si = 0)).length = N / si := by
  intro N
  induction N with
  | zero => simp
  | succ N ih =>
    rw [List.range'_1_concat, List.filter_append, List.length_append, ih,
      Nat.succ_div]
    by_cases h : si ∣ N + 1
    · have hm : (1 + N) % si = 0 := by
        rw [Nat.add_comm]
        exact Nat.dvd_iff_mod_eq_zero.mp h
      simp [hm, h]
    · have hm : ¬((1 + N) % si = 0) := by
        rw [Nat.add_comm]
        exact fun hc => h (Nat.dvd_iff_mod_eq_zero.mpr hc)
      simp [hm, h]

theorem heatAux_frames_length (alpha dt dx sigma : ℝ) (g : ℕ → ℝ) (si : ℕ) :
    ∀ (count n : ℕ) (uc : List ℝ × ℕ) (w : List ℝ),
    w ∈ heatAux alpha dt dx sigma g si n count uc → w.length = uc.1.length := by
  intro count
  induction count with
  | zero => intro n uc w hw; simp [heatAux] at hw
  | succ count ih =>
    intro n uc w hw
    rw [heatAux] at hw
    rcases List.mem_append.mp hw with h | h
    · by_cases hrec : n % si = 0
      · rw [if_pos hrec, List.mem_singleton] at h
        rw [h, heatEvol_fst_length]
      · rw [if_neg hrec] at h
        simp at h
    · have := ih (n + 1) (heatEvol alpha dt dx sigma g uc) w h
      rw [this, heatEvol_fst_length]

theorem heatEvol_noiseless (alpha dt dx sigma : ℝ) (g : ℕ → ℝ)
    (uc : List ℝ × ℕ) (h : ¬0 < sigma) :
    heatEvol alpha dt dx sigma g uc = (heatStepU alpha dt dx uc.1, uc.2) := by
  simp [heatEvol, h]

theorem heatAux_noiseless_g (alpha dt dx sigma : ℝ) (g g2 : ℕ → ℝ) (si : ℕ)
    (h : ¬0 < sigma) :
    ∀ (count n : ℕ) (uc : List ℝ × ℕ),
    heatAux alpha dt dx sigma g si n count uc =
      heatAux alpha dt dx sigma g2 si n count uc := by
  intro count
  induction count with
  | zero => intro n uc; simp [heatAux]
  | succ count ih =>
    intro n uc
    rw [heatAux, heatAux, heatEvol_noiseless _ _ _ _ _ _ h,
      heatEvol_noiseless _ _ _ _ _ _ h, ih]

theorem heatRun_eq (alpha dt dx sigma : ℝ) (g : ℕ → ℝ) (si N : ℕ)
    (u0 : List ℝ) :
    heatRun alpha dt dx sigma g si N u0 =
      ⟨u0 :: heatAux alpha dt dx sigma g si 1 N (u0, 0),
       sumSq u0 * dx ::
         (heatAux alpha dt dx sigma g si 1 N (u0, 0)).map
           (fun w => sumSq w * dx),
       ((heatEvol alpha dt dx sigma g)^[N] (u0, 0)).2⟩ := by
  unfold heatRun
  rw [heat_runSteps_decomp]
  rfl

theorem heatInitCondition_ok_length (x : List ℝ) (kind : String)
    (g42 : ℕ → ℝ) (u0 : List ℝ)
    (h : heatInitCondition x kind g42 = .ok u0) : u0.length = x.length := by
  unfold heatInitCondition at h
  split at h
  · rw [Except.ok.injEq] at h
    subst h
    simp
  · split at h
    · rw [Except.ok.injEq] at h
      subst h
      simp
    · split at h
      · rw [Except.ok.injEq] at h
        subst h
        simp
      · cases h

theorem exceptBind_ok {e a b : Type} (x : a) (f : a → Except e b) :
    (Except.ok x : Except e a).bind f = f x := rfl

theorem exceptBind_error {e a b : Type} (err : e) (f : a → Except e b) :
    (Except.error err : Except e a).bind f = Except.error err := rfl

theorem solveHeat_ok_inv (g42 g : ℕ → ℝ) (p : HeatParams) (res : HeatOut)
    (h : solveHeat g42 g p = .ok res) :
    ∃ u0 : List ℝ,
      u0.length = (⌊p.domain / p.dx⌋ + 1).toNat ∧
      res = heatRun p.alpha p.dt p.dx p.sigma g
        (if p.snapshot_interval ≤ 0 then 1 else p.snapshot_interval.toNat)
        p.t_steps.toNat (setEndsZero u0) := by
  unfold solveHeat at h
  split at h
  · cases h
  split at h
  · cases h
  split at h
  · cases h
  split at h
  · cases h
  simp only [] at h
  rcases hinit : p.init_state with _ | st
  all_goals rw [hinit] at h
  all_goals simp only [] at h
  · rcases hcond : heatInitCondition (linspace 0 p.domain
        (⌊p.domain / p.dx⌋ + 1).toNat) p.init g42 with e | u0
    all_goals rw [hcond] at h
    · rw [exceptBind_error] at h
      cases h
    · rw [exceptBind_ok] at h
      split at h
      · rw [Except.ok.injEq] at h
        refine ⟨u0, ?_, h.symm⟩
        rw [heatInitCondition_ok_length _ _ _ _ hcond, linspace_length]
      · cases h
  · split at h
    · rw [exceptBind_ok] at h
      split at h
      · rw [Except.ok.injEq] at h
        refine ⟨st, by assumption, h.symm⟩
      · cases h
    · rw [exceptBind_error] at h
      cases h

/- ## Wave loop decomposition -/

/-- Evolution of the (u_curr, u_prev, cursor) triple over one wave
iteration. -/
noncomputable def waveEvol (r2 k sigma dt : ℝ) (g : ℕ → ℝ)
    (t : List ℝ × List ℝ × ℕ) : List ℝ × List ℝ × ℕ :=
  (waveNext r2 k sigma dt
      (if 0 < sigma then (fun i => g (t.2.2 + i)) else fun _ => 0) t.1 t.2.1,
    t.1,
    if 0 < sigma then t.2.2 + t.1.length else t.2.2)

/-- The frames the wave loop appends over `count` iterations. -/
noncomputable def waveAuxF (r2 k sigma dt : ℝ) (g : ℕ → ℝ) :
    ℕ → List ℝ × List ℝ × ℕ → List (List ℝ)
  | 0, _ => []
  | count + 1, t =>
    (waveEvol r2 k sigma dt g t).1 ::
      waveAuxF r2 k sigma dt g count (waveEvol r2 k sigma dt g t)

/-- The energies the wave loop appends over `count` iterations. -/
noncomputable def waveAuxE (r2 k c sigma dt dx : ℝ) (g : ℕ → ℝ) :
    ℕ → List ℝ × List ℝ × ℕ → List ℝ
  | 0, _ => []
  | count + 1, t =>
    waveEnergy c dt dx (waveEvol r2 k sigma dt g t).1 t.2.1 t.1 ::
      waveAuxE r2 k c sigma dt dx g count (waveEvol r2 k sigma dt g t)

theorem wave_runSteps_decomp (r2 k c sigma dt dx : ℝ) (g : ℕ → ℝ) :
    ∀ (count n : ℕ) (s : WaveState),
    runSteps (waveStep r2 k c sigma dt dx g) n count s =
      ⟨((waveEvol r2 k sigma dt g)^[count] (s.uCurr, s.uPrev, s.ctr)).1,
       ((waveEvol r2 k sigma dt g)^[count] (s.uCurr, s.uPrev, s.ctr)).2.1,
       ((waveEvol r2 k sigma dt g)^[count] (s.uCurr, s.uPrev, s.ctr)).2.2,
       s.frames ++ waveAuxF r2 k sigma dt g count (s.uCurr, s.uPrev, s.ctr),
       s.energy ++
         waveAuxE r2 k c sigma dt dx g count (s.uCurr, s.uPrev, s.ctr)⟩ := by
  intro count
  induction count with
  | zero =>
    intro n s
    simp [runSteps, waveAuxF, waveAuxE]
  | succ count ih =>
    intro n s
    rw [runSteps, ih]
    have hstep : waveStep r2 k c sigma dt dx g n s =
        ⟨(waveEvol r2 k sigma dt g (s.uCurr, s.uPrev, s.ctr)).1,
         (waveEvol r2 k sigma dt g (s.uCurr, s.uPrev, s.ctr)).2.1,
         (waveEvol r2 k sigma dt g (s.uCurr, s.uPrev, s.ctr)).2.2,
         s.frames ++
           [(waveEvol r2 k sigma dt g (s.uCurr, s.uPrev, s.ctr)).1],
         s.energy ++
           [waveEnergy c dt dx
             (waveEvol r2 k sigma dt g (s.uCurr, s.uPrev, s.ctr)).1
             s.uPrev s.uCurr]⟩ := by
      by_cases h : 0 < sigma <;>
        simp [waveStep, waveEvol, h]
    rw [hstep, Function.iterate_succ_apply]
    conv_rhs => rw [waveAuxF, waveAuxE]
    simp [List.append_assoc]

theorem waveNext_length (r2 k sigma dt : ℝ) (noise : ℕ → ℝ)
    (uCurr uPrev : List ℝ) :
    (waveNext r2 k sigma dt noise uCurr uPrev).length = uCurr.length := by
  simp [waveNext]

theorem waveEvol_fst_length (r2 k sigma dt : ℝ) (g : ℕ → ℝ)
    (t : List ℝ × List ℝ × ℕ) :
    (waveEvol r2 k sigma dt g t).1.length = t.1.length := by
  simp [waveEvol, waveNext_length]

theorem waveAuxF_length (r2 k sigma dt : ℝ) (g : ℕ → ℝ) :
    ∀ (count : ℕ) (t : List ℝ × List ℝ × ℕ),
    (waveAuxF r2 k sigma dt g count t).length = count := by
  intro count
  induction count with
  | zero => intro t; rfl
  | succ count ih => intro t; simp [waveAuxF, ih]

theorem waveAuxE_length (r2 k c sigma dt dx : ℝ) (g : ℕ → ℝ) :
    ∀ (count : ℕ) (t : List ℝ × List ℝ × ℕ),
    (waveAuxE r2 k c sigma dt dx g count t).length = count := by
  intro count
  induction count with
  | zero => intro t; rfl
  | succ count ih => intro t; simp [waveAuxE, ih]

theorem waveNext_getD_zero (r2 k sigma dt : ℝ) (noise : ℕ → ℝ)
    (uCurr uPrev : List ℝ) (h : uCurr.length ≠ 0) :
    (waveNext r2 k sigma dt noise uCurr uPrev).getD 0 0 = 0 := by
  unfold waveNext
  rw [List.getD_eq_getElem?_getD, List.getElem?_map]
  rw [List.getElem?_range (by omega : 0 < uCurr.length)]
  simp

theorem waveNext_getD_last (r2 k sigma dt : ℝ) (noise : ℕ → ℝ)
    (uCurr uPrev : List ℝ) (h : uCurr.length ≠ 0) :
    (waveNext r2 k sigma dt noise uCurr uPrev).getD (uCurr.length - 1) 0
      = 0 := by
  unfold waveNext
  rw [List.getD_eq_getElem?_getD, List.getElem?_map]
  rw [List.getElem?_range (by omega : uCurr.length - 1 < uCurr.length)]
  simp

/-- Every frame the wave loop appends has the grid length and value zero at
both endpoints. -/
theorem waveAuxF_frames (r2 k sigma dt : ℝ) (g : ℕ → ℝ) :
    ∀ (count : ℕ) (t : List ℝ × List ℝ × ℕ) (w : List ℝ),
    w ∈ waveAuxF r2 k sigma dt g count t →
      w.length = t.1.length ∧
      (t.1.length ≠ 0 → w.getD 0 0 = 0 ∧ w.getD (w.length - 1) 0 = 0) := by
  intro count
  induction count with
  | zero => intro t w hw; simp [waveAuxF] at hw
  | succ count ih =>
    intro t w hw
    rw [waveAuxF, List.mem_cons] at hw
    rcases hw with h | h
    · subst h
      refine ⟨waveEvol_fst_length _ _ _ _ _ _, fun hne => ?_⟩
      rw [waveEvol_fst_length]
      constructor
      · exact waveNext_getD_zero _ _ _ _ _ _ _ hne
      · exact waveNext_getD_last _ _ _ _ _ _ _ hne
  -- the noise argument of the unfolded waveEvol is definitionally the same
    · have := ih (waveEvol r2 k sigma dt g t) w h
      rw [waveEvol_fst_length] at this
      exact this

/-- Grid size of a wave call (`nx = int(domain_len / dx) + 1`). -/
noncomputable def waveNx (p : WaveParams) : ℕ :=
  (pyTrunc (p.domain_len / p.dx) + 1).toNat

/-- Step count of a wave call (`nt = int(T / dt)`). -/
noncomputable def waveNt (p : WaveParams) : ℕ := (pyTrunc (p.T / p.dt)).toNat

/-- The initial current field of a wave call. -/
noncomputable def waveU0 (p : WaveParams) : List ℝ :=
  waveInitCurr p (linspace 0 p.domain_len (waveNx p)) (waveNx p)

/-- The initial previous field of a wave call. -/
noncomputable def waveUp0 (p : WaveParams) : List ℝ :=
  waveInitPrev p (waveU0 p) (waveNx p)

/-- A wave call whose parameters pass the divisions and the CFL check always
succeeds, returning the initial frame followed by one frame and one energy
value per step. -/
theorem solveWave_ok (g : ℕ → ℝ) (p : WaveParams)
    (h1 : ¬(p.dx = 0 ∨ p.dt = 0))
    (h2 : ¬(pyTrunc (p.domain_len / p.dx) + 1 ≤ 0))
    (h3 : ¬(p.c * p.dt / p.dx > 1)) :
    solveWave g p = .ok
      ⟨linspace 0 p.domain_len (waveNx p),
       waveU0 p ::
         waveAuxF ((p.c * p.dt / p.dx) ^ 2) (p.damping * p.dt) p.sigma p.dt g
           (waveNt p) (waveU0 p, waveUp0 p, 0),
       waveAuxE ((p.c * p.dt / p.dx) ^ 2) (p.damping * p.dt) p.c p.sigma p.dt
         p.dx g (waveNt p) (waveU0 p, waveUp0 p, 0),
       (((waveEvol ((p.c * p.dt / p.dx) ^ 2) (p.damping * p.dt) p.sigma p.dt
           g)^[waveNt p]) (waveU0 p, waveUp0 p, 0)).2.2⟩ := by
  unfold solveWave
  rw [if_neg h1, if_neg h2, if_neg h3]
  simp only []
  rw [wave_runSteps_decomp]
  rfl

theorem solveHeat_ok_eq (g42 g : ℕ → ℝ) (p : HeatParams) (u0 : List ℝ)
    (h1 : ¬(p.dx ≤ 0 ∨ p.dt ≤ 0)) (h2 : ¬p.t_steps ≤ 0)
    (h3 : ¬(p.alpha * p.dt / (p.dx * p.dx) > 0.5))
    (h4 : ¬(⌊p.domain / p.dx⌋ + 1 ≤ 0))
    (hinit : p.init_state = none)
    (hcond : heatInitCondition
      (linspace 0 p.domain (⌊p.domain / p.dx⌋ + 1).toNat) p.init g42 =
        .ok u0)
    (hbc : p.bc = "dirichlet") :
    solveHeat g42 g p = .ok (heatRun p.alpha p.dt p.dx p.sigma g
      (if p.snapshot_interval ≤ 0 then 1 else p.snapshot_interval.toNat)
      p.t_steps.toNat (setEndsZero u0)) := by
  unfold solveHeat
  rw [if_neg h1, if_neg h2, if_neg h3, if_neg h4]
  simp only []
  rw [hinit]
  simp only []
  rw [hcond, exceptBind_ok, if_pos hbc]

theorem solveHeat_ok_resume (g42 g : ℕ → ℝ) (p : HeatParams) (st : List ℝ)
    (h1 : ¬(p.dx ≤ 0 ∨ p.dt ≤ 0)) (h2 : ¬p.t_steps ≤ 0)
    (h3 : ¬(p.alpha * p.dt / (p.dx * p.dx) > 0.5))
    (h4 : ¬(⌊p.domain / p.dx⌋ + 1 ≤ 0))
    (hinit : p.init_state = some st)
    (hlen : st.length = (⌊p.domain / p.dx⌋ + 1).toNat)
    (hbc : p.bc = "dirichlet") :
    solveHeat g42 g p = .ok (heatRun p.alpha p.dt p.dx p.sigma g
      (if p.snapshot_interval ≤ 0 then 1 else p.snapshot_interval.toNat)
      p.t_steps.toNat (setEndsZero st)) := by
  unfold solveHeat
  rw [if_neg h1, if_neg h2, if_neg h3, if_neg h4]
  simp only []
  rw [hinit]
  simp only []
  rw [if_pos hlen, exceptBind_ok, if_pos hbc]

/-- A shape-mismatched `init_state` makes the heat solver raise
(`init_state length … does not match domain/dx`), regardless of every other
setting. -/
theorem solveHeat_mismatch (g42 g : ℕ → ℝ) (p : HeatParams) (st : List ℝ)
    (h1 : ¬(p.dx ≤ 0 ∨ p.dt ≤ 0)) (h2 : ¬p.t_steps ≤ 0)
    (h3 : ¬(p.alpha * p.dt / (p.dx * p.dx) > 0.5))
    (h4 : ¬(⌊p.domain / p.dx⌋ + 1 ≤ 0))
    (hinit : p.init_state = some st)
    (hlen : st.length ≠ (⌊p.domain / p.dx⌋ + 1).toNat) :
    solveHeat g42 g p =
      .error (.initStateMismatch st.length (⌊p.domain / p.dx⌋ + 1).toNat) := by
  unfold solveHeat
  rw [if_neg h1, if_neg h2, if_neg h3, if_neg h4]
  simp only []
  rw [hinit]
  simp only []
  rw [if_neg hlen, exceptBind_error]

theorem solveWave_ok_inv (g : ℕ → ℝ) (p : WaveParams) (res : WaveOut)
    (h : solveWave g p = .ok res) :
    ¬(p.dx = 0 ∨ p.dt = 0) ∧
    ¬(pyTrunc (p.domain_len / p.dx) + 1 ≤ 0) ∧
    ¬(p.c * p.dt / p.dx > 1) := by
  unfold solveWave at h
  split at h
  · cases h
  rename_i h1
  split at h
  · cases h
  rename_i h2
  simp only [] at h
  split at h
  · cases h
  rename_i h3
  exact ⟨h1, h2, h3⟩

/- ## Claim C9 -/

def waveP2 : WaveParams :=
  { c := 1, damping := 0, sigma := 0, T := 1, dt := 1, dx := 1,
    domain_len := 1 }

/-- C9 counterexample: a wave run records 2 frames but only 1 energy value
(the initial frame has no diagnostic), so the diagnostic sequence is not
parallel to the frame sequence. -/
theorem claim_C9_counterexample :
    ∃ res, solveWave (fun _ => 0) waveP2 = Except.ok res ∧
      res.frames.length = 2 ∧ res.energy.length = 1 ∧
      res.energy.length ≠ res.frames.length := by
  have h1 : ¬(waveP2.dx = 0 ∨ waveP2.dt = 0) := by norm_num [waveP2]
  have h2 : ¬(pyTrunc (waveP2.domain_len / waveP2.dx) + 1 ≤ 0) := by
    norm_num [waveP2, pyTrunc]
  have h3 : ¬(waveP2.c * waveP2.dt / waveP2.dx > 1) := by norm_num [waveP2]
  have hnt : waveNt waveP2 = 1 := by
    norm_num [waveNt, waveP2, pyTrunc]
  refine ⟨_, solveWave_ok (fun _ => 0) waveP2 h1 h2 h3, ?_, ?_, ?_⟩
  · simp [waveAuxF_length, hnt]
  · simp [waveAuxE_length, hnt]
  · simp [waveAuxF_length, waveAuxE_length, hnt]

/-- C9 (amended): the heat solver's energy sequence is parallel to its frame
sequence (equal length, one value per recorded frame); the wave solver
records one energy value per time step but also the initial frame, so its
energy sequence is one shorter than its frame sequence. -/
theorem claim_C9_diagnostics :
    (∀ (g42 g : ℕ → ℝ) (p : HeatParams) (res : HeatOut),
      solveHeat g42 g p = .ok res →
        res.energy.length = res.frames.length) ∧
    (∀ (g : ℕ → ℝ) (p : WaveParams) (res : WaveOut),
      solveWave g p = .ok res →
        res.energy.length + 1 = res.frames.length) := by
  constructor
  · intro g42 g p res h
    obtain ⟨u0, _, hres⟩ := solveHeat_ok_inv g42 g p res h
    rw [hres, heatRun_eq]
    simp
  · intro g p res h
    obtain ⟨h1, h2, h3⟩ := solveWave_ok_inv g p res h
    rw [solveWave_ok g p h1 h2 h3, Except.ok.injEq] at h
    rw [← h]
    simp [waveAuxF_length, waveAuxE_length]

def heatP2 : HeatParams := { alpha := 0, dt := 1, dx := 1, t_steps := 1 }

/-- Witness for C9 at one concrete heat run and one concrete wave run. -/
theorem claim_C9_witness :
    ∃ (res : HeatOut) (res2 : WaveOut),
      solveHeat (fun _ => 0) (fun _ => 0) heatP2 = .ok res ∧
      res.energy.length = res.frames.length ∧
      solveWave (fun _ => 1) waveP2 = .ok res2 ∧
      res2.energy.length + 1 = res2.frames.length := by
  have hheat : solveHeat (fun _ => 0) (fun _ => 0) heatP2 =
      .ok (heatRun heatP2.alpha heatP2.dt heatP2.dx heatP2.sigma (fun _ => 0)
        (if heatP2.snapshot_interval ≤ 0 then 1
          else heatP2.snapshot_interval.toNat)
        heatP2.t_steps.toNat (setEndsZero ((linspace 0 heatP2.domain
          (⌊heatP2.domain / heatP2.dx⌋ + 1).toNat).map fun t =>
            Real.exp (-((t - 0.5 * ((linspace 0 heatP2.domain
              (⌊heatP2.domain / heatP2.dx⌋ + 1).toNat).getD 0 0 +
              (linspace 0 heatP2.domain
                (⌊heatP2.domain / heatP2.dx⌋ + 1).toNat).getD
                ((linspace 0 heatP2.domain
                  (⌊heatP2.domain / heatP2.dx⌋ + 1).toNat).length - 1) 0))
              ^ 2) / (2 * (if 0.05 * ((linspace 0 heatP2.domain
                (⌊heatP2.domain / heatP2.dx⌋ + 1).toNat).getD
                ((linspace 0 heatP2.domain
                  (⌊heatP2.domain / heatP2.dx⌋ + 1).toNat).length - 1) 0 -
                (linspace 0 heatP2.domain
                  (⌊heatP2.domain / heatP2.dx⌋ + 1).toNat).getD 0 0) = 0
                then 0.05
                else 0.05 * ((linspace 0 heatP2.domain
                  (⌊heatP2.domain / heatP2.dx⌋ + 1).toNat).getD
                  ((linspace 0 heatP2.domain
                    (⌊heatP2.domain / heatP2.dx⌋ + 1).toNat).length - 1) 0 -
                  (linspace 0 heatP2.domain
                    (⌊heatP2.domain / heatP2.dx⌋ + 1).toNat).getD 0 0))
                ^ 2))))) := by
    refine solveHeat_ok_eq (fun _ => 0) (fun _ => 0) heatP2 _ ?_ ?_ ?_ ?_
      rfl ?_ rfl
    · norm_num [heatP2]
    · norm_num [heatP2]
    · norm_num [heatP2]
    · norm_num [heatP2]
    · rfl
  have h1 : ¬(waveP2.dx = 0 ∨ waveP2.dt = 0) := by norm_num [waveP2]
  have h2 : ¬(pyTrunc (waveP2.domain_len / waveP2.dx) + 1 ≤ 0) := by
    norm_num [waveP2, pyTrunc]
  have h3 : ¬(waveP2.c * waveP2.dt / waveP2.dx > 1) := by norm_num [waveP2]
  refine ⟨_, _, hheat, claim_C9_diagnostics.1 _ _ _ _ hheat,
    solveWave_ok (fun _ => 1) waveP2 h1 h2 h3,
    claim_C9_diagnostics.2 _ _ _ (solveWave_ok (fun _ => 1) waveP2 h1 h2 h3)⟩

theorem waveU0_resume (p : WaveParams) (cu cup : List ℝ)
    (hu : p.current_u = some cu) (hup : p.current_u_prev = some cup) :
    waveU0 p = takeIntoZeros (waveNx p) cu := by
  unfold waveU0 waveInitCurr
  rw [hu, hup]

theorem rdInit_mismatch (p : RDParams) (omU omV : ℕ → ℕ → ℚ)
    (spotsO : ℕ → ℕ × ℕ) (cu cv : List (List ℚ))
    (hu : p.current_u = some cu) (hv : p.current_v = some cv)
    (hmis : ¬(rdShapeOk cu p.width p.height &&
      rdShapeOk cv p.width p.height) = true) :
    rdInit p omU omV spotsO =
      (fun _ _ => FloatVal.fin 1, fun _ _ => FloatVal.fin 0) := by
  unfold rdInit
  rw [hu, hv]
  simp only []
  rw [if_neg hmis]

/- ## Claim C3 -/

def wavePmis : WaveParams :=
  { c := 1, damping := 0, sigma := 0, T := 1, dt := 1, dx := 1,
    domain_len := 1, current_u := some [5, 6, 7],
    current_u_prev := some [8] }

def heatPmis : HeatParams :=
  { alpha := 0, dt := 1, dx := 1, t_steps := 1, init_state := some [5, 6, 7] }

/-- C3 counterexample: a shape-mismatched wave resume state does not raise
(the call succeeds), while the heat solver raises on the analogous
mismatched `init_state`; the claim has the two solvers' behaviours exactly
inverted. -/
theorem claim_C3_counterexample :
    (∃ res, solveWave (fun _ => 0) wavePmis = Except.ok res) ∧
    solveHeat (fun _ => 0) (fun _ => 0) heatPmis =
      .error (.initStateMismatch 3 2) := by
  constructor
  · refine ⟨_, solveWave_ok (fun _ => 0) wavePmis ?_ ?_ ?_⟩
    · norm_num [wavePmis]
    · norm_num [wavePmis, pyTrunc]
    · norm_num [wavePmis]
  · have h := solveHeat_mismatch (fun _ => 0) (fun _ => 0) heatPmis [5, 6, 7]
      (by norm_num [heatPmis]) (by norm_num [heatPmis])
      (by norm_num [heatPmis]) (by norm_num [heatPmis]) rfl
      (by norm_num [heatPmis]; decide)
    rw [h]
    norm_num [heatPmis]
    decide

/-- C3 (amended): a shape-mismatched wave resume state does *not* raise: the
call succeeds and the solver silently copies the overlapping prefix of the
supplied data into the zero-initialised grid (frame 0 is that truncated or
zero-padded state); the heat solver, by contrast, raises a configuration
error on a shape-mismatched resume state instead of falling back. -/
theorem claim_C3_wave_vs_heat :
    (∀ (g : ℕ → ℝ) (p : WaveParams) (cu cup : List ℝ),
      p.current_u = some cu → p.current_u_prev = some cup →
      ¬(p.dx = 0 ∨ p.dt = 0) →
      ¬(pyTrunc (p.domain_len / p.dx) + 1 ≤ 0) →
      ¬(p.c * p.dt / p.dx > 1) →
      cu.length ≠ waveNx p →
      ∃ res, solveWave g p = .ok res ∧
        res.frames.head? = some (takeIntoZeros (waveNx p) cu)) ∧
    (∀ (g42 g : ℕ → ℝ) (p : HeatParams) (st : List ℝ),
      p.init_state = some st →
      ¬(p.dx ≤ 0 ∨ p.dt ≤ 0) → ¬p.t_steps ≤ 0 →
      ¬(p.alpha * p.dt / (p.dx * p.dx) > 0.5) →
      ¬(⌊p.domain / p.dx⌋ + 1 ≤ 0) →
      st.length ≠ (⌊p.domain / p.dx⌋ + 1).toNat →
      solveHeat g42 g p =
        .error (.initStateMismatch st.length
          (⌊p.domain / p.dx⌋ + 1).toNat)) := by
  constructor
  · intro g p cu cup hu hup h1 h2 h3 _hmis
    refine ⟨_, solveWave_ok g p h1 h2 h3, ?_⟩
    rw [waveU0_resume p cu cup hu hup]
    rfl
  · intro g42 g p st hinit h1 h2 h3 h4 hlen
    exact solveHeat_mismatch g42 g p st h1 h2 h3 h4 hinit hlen

/-- Witness for C3 at concrete mismatched resume states. -/
theorem claim_C3_witness :
    (∃ res, solveWave (fun _ => 2) wavePmis = .ok res ∧
      res.frames.head? = some (takeIntoZeros (waveNx wavePmis) [5, 6, 7])) ∧
    solveHeat (fun _ => 2) (fun _ => 2) heatPmis =
      .error (.initStateMismatch 3 (⌊heatPmis.domain / heatPmis.dx⌋ +
        1).toNat) := by
  constructor
  · refine claim_C3_wave_vs_heat.1 (fun _ => 2) wavePmis [5, 6, 7] [8]
      rfl rfl ?_ ?_ ?_ ?_
    · norm_num [wavePmis]
    · norm_num [wavePmis, pyTrunc]
    · norm_num [wavePmis]
    · norm_num [wavePmis, waveNx, pyTrunc]
      decide
  · exact claim_C3_wave_vs_heat.2 (fun _ => 2) (fun _ => 2) heatPmis [5, 6, 7]
      rfl (by norm_num [heatPmis]) (by norm_num [heatPmis])
      (by norm_num [heatPmis]) (by norm_num [heatPmis])
      (by norm_num [heatPmis]; decide)

/- ## Claim C2 -/

def heatPmisB : HeatParams :=
  { alpha := 0, dt := 1, dx := 1, t_steps := 1,
    init_state := some [1, 2, 3, 4] }

/-- C2 counterexample: a shape-mismatched heat resume state does not fall
back silently — the call raises a configuration error; this falsifies the
claim that every solver silently discards mismatched resume data without an
error. -/
theorem claim_C2_counterexample :
    solveHeat (fun _ => 0) (fun _ => 0) heatPmisB =
      .error (.initStateMismatch 4 2) := by
  have h := solveHeat_mismatch (fun _ => 0) (fun _ => 0) heatPmisB
    [1, 2, 3, 4] (by norm_num [heatPmisB]) (by norm_num [heatPmisB])
    (by norm_num [heatPmisB]) (by norm_num [heatPmisB]) rfl
    (by norm_num [heatPmisB]; decide)
  rw [h]
  norm_num [heatPmisB]
  decide

/-- C2 (amended): on a shape-mismatched resume state the three solvers
behave differently.  Heat raises a configuration error (no fallback); wave
raises nothing and copies the overlapping prefix of the mismatched data
into the zero grid (so the data *is* partially used); reaction-diffusion
proceeds from the base state `U = 1`, `V = 0`, skipping the named
initial-condition catalogue entirely. -/
theorem claim_C2_resume_mismatch :
    (∀ (g42 g : ℕ → ℝ) (p : HeatParams) (st : List ℝ),
      p.init_state = some st →
      ¬(p.dx ≤ 0 ∨ p.dt ≤ 0) → ¬p.t_steps ≤ 0 →
      ¬(p.alpha * p.dt / (p.dx * p.dx) > 0.5) →
      ¬(⌊p.domain / p.dx⌋ + 1 ≤ 0) →
      st.length ≠ (⌊p.domain / p.dx⌋ + 1).toNat →
      solveHeat g42 g p =
        .error (.initStateMismatch st.length
          (⌊p.domain / p.dx⌋ + 1).toNat)) ∧
    (∀ (g : ℕ → ℝ) (p : WaveParams) (cu cup : List ℝ),
      p.current_u = some cu → p.current_u_prev = some cup →
      ¬(p.dx = 0 ∨ p.dt = 0) →
      ¬(pyTrunc (p.domain_len / p.dx) + 1 ≤ 0) →
      ¬(p.c * p.dt / p.dx > 1) →
      cu.length ≠ waveNx p →
      ∃ res, solveWave g p = .ok res ∧
        res.frames.head? = some (takeIntoZeros (waveNx p) cu)) ∧
    (∀ (p : RDParams) (omU omV : ℕ → ℕ → ℚ) (spotsO : ℕ → ℕ × ℕ)
      (cu cv : List (List ℚ)),
      p.current_u = some cu → p.current_v = some cv →
      ¬(rdShapeOk cu p.width p.height &&
        rdShapeOk cv p.width p.height) = true →
      rdInit p omU omV spotsO =
        (fun _ _ => FloatVal.fin 1, fun _ _ => FloatVal.fin 0)) := by
  refine ⟨?_, ?_, ?_⟩
  · intro g42 g p st hinit h1 h2 h3 h4 hlen
    exact solveHeat_mismatch g42 g p st h1 h2 h3 h4 hinit hlen
  · intro g p cu cup hu hup h1 h2 h3 _hmis
    refine ⟨_, solveWave_ok g p h1 h2 h3, ?_⟩
    rw [waveU0_resume p cu cup hu hup]
    rfl
  · intro p omU omV spotsO cu cv hu hv hmis
    exact rdInit_mismatch p omU omV spotsO cu cv hu hv hmis

def wavePmisB : WaveParams :=
  { c := 1, damping := 0, sigma := 0, T := 1, dt := 1, dx := 1,
    domain_len := 1, current_u := some [9], current_u_prev := some [7, 7] }

def rdPmis : RDParams :=
  { Du := 0, Dv := 0, F := 0, k := 0, sigma := 0, T := 1, dt := 1, dx := 1,
    width := 2, height := 2, current_u := some [[1]],
    current_v := some [[0, 0], [0, 0]] }

/-- Witness for C2 at concrete mismatched resume states for all three
solvers. -/
theorem claim_C2_witness :
    solveHeat (fun _ => 3) (fun _ => 3) heatPmisB =
      .error (.initStateMismatch 4
        (⌊heatPmisB.domain / heatPmisB.dx⌋ + 1).toNat) ∧
    (∃ res, solveWave (fun _ => 3) wavePmisB = .ok res ∧
      res.frames.head? = some (takeIntoZeros (waveNx wavePmisB) [9])) ∧
    rdInit rdPmis (fun _ _ => 0) (fun _ _ => 0) (fun _ => (0, 0)) =
      (fun _ _ => FloatVal.fin 1, fun _ _ => FloatVal.fin 0) := by
  refine ⟨?_, ?_, ?_⟩
  · exact claim_C2_resume_mismatch.1 (fun _ => 3) (fun _ => 3) heatPmisB
      [1, 2, 3, 4] rfl (by norm_num [heatPmisB]) (by norm_num [heatPmisB])
      (by norm_num [heatPmisB]) (by norm_num [heatPmisB])
      (by norm_num [heatPmisB]; decide)
  · refine claim_C2_resume_mismatch.2.1 (fun _ => 3) wavePmisB [9] [7, 7]
      rfl rfl ?_ ?_ ?_ ?_
    · norm_num [wavePmisB]
    · norm_num [wavePmisB, pyTrunc]
    · norm_num [wavePmisB]
    · norm_num [wavePmisB, waveNx, pyTrunc]
      decide
  · exact claim_C2_resume_mismatch.2.2 rdPmis (fun _ _ => 0) (fun _ _ => 0)
      (fun _ => (0, 0)) [[1]] [[0, 0], [0, 0]] rfl rfl (by decide)

/- ## Claim C10 -/

/-- C10: when `current_u` is supplied but `current_u_prev` is `None`, the
resume branch is skipped, the catalogue `pulse` condition fills `u_curr`,
and — because the zero-initial-velocity assignment is guarded by
`current_u is None` only — `u_prev` stays all zeros, so the implied initial
velocity `(u_curr - u_prev)/dt` is nonzero at every grid point. -/
theorem claim_C10_wave_resume_velocity (p : WaveParams) (xs : List ℝ)
    (hu : p.current_u = some xs) (hup : p.current_u_prev = none)
    (hpulse : p.init_type = "pulse") :
    waveUp0 p = List.replicate (waveNx p) 0 ∧
    waveU0 p = (linspace 0 p.domain_len (waveNx p)).map
      (fun t => Real.exp (-((t - p.domain_len / 2) ^ 2) / 0.5)) ∧
    ∀ i, i < waveNx p →
      (waveU0 p).getD i 0 ≠ (waveUp0 p).getD i 0 := by
  have hU0 : waveU0 p = (linspace 0 p.domain_len (waveNx p)).map
      (fun t => Real.exp (-((t - p.domain_len / 2) ^ 2) / 0.5)) := by
    unfold waveU0 waveInitCurr
    rw [hu, hup]
    simp only []
    rw [if_pos hpulse]
  have hUp : waveUp0 p = List.replicate (waveNx p) 0 := by
    unfold waveUp0 waveInitPrev
    rw [hu, hup]
  refine ⟨hUp, hU0, ?_⟩
  intro i hi
  rw [hU0, hUp]
  have hlen : i < (linspace 0 p.domain_len (waveNx p)).length := by
    rw [linspace_length]
    exact hi
  have hzero : (List.replicate (waveNx p) (0 : ℝ)).getD i 0 = 0 := by
    rw [List.getD_eq_getElem?_getD, List.getElem?_replicate]
    split <;> rfl
  rw [hzero, List.getD_eq_getElem?_getD, List.getElem?_map,
    List.getElem?_eq_getElem hlen]
  exact ne_of_gt (Real.exp_pos _)

def wavePC10 : WaveParams :=
  { c := 1, damping := 0, sigma := 0, T := 1, dt := 1, dx := 1,
    domain_len := 1, current_u := some [1, 2] }

/-- Witness for C10 at a concrete call supplying only `current_u`. -/
theorem claim_C10_witness :
    waveUp0 wavePC10 = List.replicate (waveNx wavePC10) 0 ∧
    waveU0 wavePC10 = (linspace 0 wavePC10.domain_len
      (waveNx wavePC10)).map
        (fun t => Real.exp (-((t - wavePC10.domain_len / 2) ^ 2) / 0.5)) ∧
    ∀ i, i < waveNx wavePC10 →
      (waveU0 wavePC10).getD i 0 ≠ (waveUp0 wavePC10).getD i 0 :=
  claim_C10_wave_resume_velocity wavePC10 [1, 2] rfl rfl rfl

theorem rdLoop_ok_histU_length
    (step : ℕ → RDGrid × RDGrid → RDGrid × RDGrid) (nx ny spf : ℕ)
    (dtq : ℚ) :
    ∀ (rem i : ℕ) (s s2 : RDState),
    rdLoop step nx ny spf dtq i rem s = .ok s2 →
    s2.histU.length = s.histU.length +
      ((List.range' i rem).filter fun m => decide (m % spf = 0)).length := by
  intro rem
  induction rem with
  | zero =>
    intro i s s2 h
    rw [rdLoop, Except.ok.injEq] at h
    rw [h]
    simp
  | succ rem ih =>
    intro i s s2 h
    rw [rdLoop] at h
    split at h
    · cases h
    · have hlen := ih (i + 1) _ s2 h
      rw [hlen, List.range'_succ, List.filter_cons]
      by_cases hc : i % spf = 0 <;>
        simp [hc, Nat.add_assoc, Nat.add_comm 1]

theorem zero_multiples_count (d : ℕ) (N : ℕ) :
    ((List.range' 0 N).filter fun m => decide (m % d = 0)).length ≤
      (N + d - 1) / d + 1 := by
  cases N with
  | zero => simp
  | succ M =>
    have hsplit : List.range' 0 (M + 1) = 0 :: List.range' 1 M :=
      List.range'_succ 0 M 1
    have h0 : decide ((0 : ℕ) % d = 0) = true := by simp
    rw [hsplit, List.filter_cons, h0, if_pos rfl, List.length_cons,
      multiples_count]
    have hmono : M / d ≤ (M + 1 + d - 1) / d := by
      apply Nat.div_le_div_right
      omega
    omega

deriving instance DecidableEq for Except

theorem exceptMap_error {e a b : Type} (err : e) (f : a → b) :
    (Except.error err : Except e a).map f = Except.error err := rfl

theorem exceptMap_ok {e a b : Type} (x : a) (f : a → b) :
    (Except.ok x : Except e a).map f = Except.ok (f x) := rfl

theorem solveRD_ok_inv (p : RDParams) (omU omV : ℕ → ℕ → ℚ)
    (spotsO : ℕ → ℕ × ℕ) (nuU nuV : ℕ → ℕ → ℕ → ℚ) (sqrtQ : ℚ → ℚ)
    (res : RDOut) (h : solveRD p omU omV spotsO nuU nuV sqrtQ = .ok res) :
    ∃ s2 : RDState,
      rdLoop (rdStep p nuU nuV sqrtQ) p.width p.height (rdSpf p) p.dt 0
        (rdNt p) ⟨(rdInit p omU omV spotsO).1, (rdInit p omU omV spotsO).2,
          [], [], []⟩ = .ok s2 ∧ res.U = s2.histU := by
  unfold solveRD at h
  split at h
  · cases h
  rcases hloop : rdLoop (rdStep p nuU nuV sqrtQ) p.width p.height (rdSpf p)
      p.dt 0 (rdNt p) ⟨(rdInit p omU omV spotsO).1,
        (rdInit p omU omV spotsO).2, [], [], []⟩ with e | s2
  all_goals rw [hloop] at h
  · rw [exceptMap_error] at h
    cases h
  · rw [exceptMap_ok, Except.ok.injEq] at h
    exact ⟨s2, rfl, by rw [← h]⟩

-- Batteries marks the rational operations irreducible, which blocks the
-- elaborator-side evaluation `decide` performs; restore kernel-style
-- reducibility locally so concrete runs evaluate.
attribute [local semireducible] Rat.add Rat.mul Rat.sub Rat.inv

/- ## Claim C5 -/

def rdPC5 : RDParams :=
  { Du := 0, Dv := 0, F := 1, k := 0, sigma := 0, T := 1, dt := 1, dx := 1,
    width := 2, height := 2, current_u := some [[0, 0], [0, 0]],
    current_v := some [[0, 0], [0, 0]] }

/-- C5 counterexample: a completed reaction-diffusion run whose first
recorded frame is the state *after* the first time step, not the initial
field (the initial frame is never recorded by this solver). -/
theorem claim_C5_counterexample :
    solveRD rdPC5 (fun _ _ => 0) (fun _ _ => 0) (fun _ => (0, 0))
      (fun _ _ _ => 0) (fun _ _ _ => 0) (fun q => q) =
      .ok ⟨[0],
        [[[FloatVal.fin 1, FloatVal.fin 1],
          [FloatVal.fin 1, FloatVal.fin 1]]],
        [[[FloatVal.fin 0, FloatVal.fin 0],
          [FloatVal.fin 0, FloatVal.fin 0]]]⟩ ∧
    gridToLists 2 2 (rdInit rdPC5 (fun _ _ => 0) (fun _ _ => 0)
      (fun _ => (0, 0))).1 =
      [[FloatVal.fin 0, FloatVal.fin 0], [FloatVal.fin 0, FloatVal.fin 0]] ∧
    ¬([[FloatVal.fin 1, FloatVal.fin 1], [FloatVal.fin 1, FloatVal.fin 1]] =
      [[FloatVal.fin 0, FloatVal.fin 0],
        [FloatVal.fin 0, FloatVal.fin 0]]) := by
  refine ⟨by decide, by decide, by decide⟩

/-- C5 (amended): for every solver run that completes, the number of
recorded frames is at most `⌈total_steps / decimation_interval⌉ + 1`, and
for the heat and wave solvers the initial field (the state before the first
time step) is the first recorded frame; the reaction-diffusion solver does
*not* record the initial frame (its first frame is the state after the
first step, and a run with `int(T/dt) = 0` records none). -/
theorem claim_C5_frame_bounds :
    (∀ (g42 g : ℕ → ℝ) (p : HeatParams) (res : HeatOut),
      solveHeat g42 g p = .ok res →
      res.frames.length ≤ (p.t_steps.toNat +
        (if p.snapshot_interval ≤ 0 then 1 else p.snapshot_interval.toNat)
        - 1) / (if p.snapshot_interval ≤ 0 then 1
          else p.snapshot_interval.toNat) + 1 ∧
      ∃ u0, res = heatRun p.alpha p.dt p.dx p.sigma g
          (if p.snapshot_interval ≤ 0 then 1 else p.snapshot_interval.toNat)
          p.t_steps.toNat u0 ∧ res.frames.head? = some u0) ∧
    (∀ (g : ℕ → ℝ) (p : WaveParams) (res : WaveOut),
      solveWave g p = .ok res →
      res.frames.length ≤ (waveNt p + 1 - 1) / 1 + 1 ∧
      res.frames.head? = some (waveU0 p)) ∧
    (∀ (p : RDParams) (omU omV : ℕ → ℕ → ℚ) (spotsO : ℕ → ℕ × ℕ)
      (nuU nuV : ℕ → ℕ → ℕ → ℚ) (sqrtQ : ℚ → ℚ) (res : RDOut),
      solveRD p omU omV spotsO nuU nuV sqrtQ = .ok res →
      res.U.length ≤ (rdNt p + rdSpf p - 1) / rdSpf p + 1) := by
  refine ⟨?_, ?_, ?_⟩
  · intro g42 g p res h
    obtain ⟨u0, _, hres⟩ := solveHeat_ok_inv g42 g p res h
    constructor
    · rw [hres, heatRun_eq]
      simp only [List.length_cons]
      rw [heatAux_length, multiples_count]
      have hmono : p.t_steps.toNat /
          (if p.snapshot_interval ≤ 0 then 1
            else p.snapshot_interval.toNat) ≤
          (p.t_steps.toNat +
            (if p.snapshot_interval ≤ 0 then 1
              else p.snapshot_interval.toNat) - 1) /
          (if p.snapshot_interval ≤ 0 then 1
            else p.snapshot_interval.toNat) := by
        have hsi : 1 ≤ (if p.snapshot_interval ≤ 0 then 1
            else p.snapshot_interval.toNat) := by
          split
          · omega
          · omega
        apply Nat.div_le_div_right
        omega
      omega
    · refine ⟨setEndsZero u0, hres, ?_⟩
      rw [hres, heatRun_eq]
      rfl
  · intro g p res h
    obtain ⟨h1, h2, h3⟩ := solveWave_ok_inv g p res h
    rw [solveWave_ok g p h1 h2 h3, Except.ok.injEq] at h
    rw [← h]
    constructor
    · simp [waveAuxF_length]
    · rfl
  · intro p omU omV spotsO nuU nuV sqrtQ res h
    obtain ⟨s2, hloop, hU⟩ :=
      solveRD_ok_inv p omU omV spotsO nuU nuV sqrtQ res h
    have hlen := rdLoop_ok_histU_length (rdStep p nuU nuV sqrtQ) p.width
      p.height (rdSpf p) p.dt (rdNt p) 0 _ s2 hloop
    rw [hU, hlen]
    simp only [List.length_nil, Nat.zero_add]
    exact zero_multiples_count (rdSpf p) (rdNt p)

def heatP3 : HeatParams :=
  { alpha := 0, dt := 1, dx := 1, t_steps := 1, init_state := some [0, 0] }

/-- Witness for C5 at one concrete completed run of each solver. -/
theorem claim_C5_witness :
    (∃ res, solveHeat (fun _ => 0) (fun _ => 0) heatP3 = Except.ok res ∧
      (res.frames.length ≤ (heatP3.t_steps.toNat +
        (if heatP3.snapshot_interval ≤ 0 then 1
          else heatP3.snapshot_interval.toNat) - 1) /
        (if heatP3.snapshot_interval ≤ 0 then 1
          else heatP3.snapshot_interval.toNat) + 1 ∧
      ∃ u0, res = heatRun heatP3.alpha heatP3.dt heatP3.dx heatP3.sigma
          (fun _ => 0)
          (if heatP3.snapshot_interval ≤ 0 then 1
            else heatP3.snapshot_interval.toNat)
          heatP3.t_steps.toNat u0 ∧ res.frames.head? = some u0)) ∧
    (∃ res2, solveWave (fun _ => 4) waveP2 = Except.ok res2 ∧
      (res2.frames.length ≤ (waveNt waveP2 + 1 - 1) / 1 + 1 ∧
        res2.frames.head? = some (waveU0 waveP2))) ∧
    (∃ res3, solveRD rdPC5 (fun _ _ => 1) (fun _ _ => 1) (fun _ => (1, 1))
        (fun _ _ _ => 1) (fun _ _ _ => 1) (fun q => q) = Except.ok res3 ∧
      res3.U.length ≤ (rdNt rdPC5 + rdSpf rdPC5 - 1) / rdSpf rdPC5 + 1) := by
  refine ⟨?_, ?_, ?_⟩
  · have hsolve := solveHeat_ok_resume (fun _ => 0) (fun _ => 0) heatP3 [0, 0]
      (by norm_num [heatP3]) (by norm_num [heatP3]) (by norm_num [heatP3])
      (by norm_num [heatP3]) rfl (by norm_num [heatP3]; decide) rfl
    exact ⟨_, hsolve, claim_C5_frame_bounds.1 (fun _ => 0) (fun _ => 0)
      heatP3 _ hsolve⟩
  · have h1 : ¬(waveP2.dx = 0 ∨ waveP2.dt = 0) := by norm_num [waveP2]
    have h2 : ¬(pyTrunc (waveP2.domain_len / waveP2.dx) + 1 ≤ 0) := by
      norm_num [waveP2, pyTrunc]
    have h3 : ¬(waveP2.c * waveP2.dt / waveP2.dx > 1) := by norm_num [waveP2]
    have hsolve := solveWave_ok (fun _ => 4) waveP2 h1 h2 h3
    exact ⟨_, hsolve, claim_C5_frame_bounds.2.1 (fun _ => 4) waveP2 _ hsolve⟩
  · have hsolve : solveRD rdPC5 (fun _ _ => 1) (fun _ _ => 1) (fun _ => (1, 1))
        (fun _ _ _ => 1) (fun _ _ _ => 1) (fun q => q) =
        .ok ⟨[0],
          [[[FloatVal.fin 1, FloatVal.fin 1],
            [FloatVal.fin 1, FloatVal.fin 1]]],
          [[[FloatVal.fin 0, FloatVal.fin 0],
            [FloatVal.fin 0, FloatVal.fin 0]]]⟩ := by decide
    exact ⟨_, hsolve, claim_C5_frame_bounds.2.2 rdPC5 (fun _ _ => 1)
      (fun _ _ => 1) (fun _ => (1, 1)) (fun _ _ _ => 1) (fun _ _ _ => 1)
      (fun q => q) _ hsolve⟩

/- ## Claim C4 -/

/-- Pure iteration of the reaction-diffusion step (no abort check), applying
the step for indices `i, i+1, …`. -/
def rdIterFrom (step : ℕ → RDGrid × RDGrid → RDGrid × RDGrid) :
    ℕ → ℕ → RDGrid × RDGrid → RDGrid × RDGrid
  | _, 0, UV => UV
  | i, n + 1, UV => rdIterFrom step (i + 1) n (step i UV)

/-- The stepping loop aborts exactly when some executed step leaves a NaN
cell in `U`; the abort is with the `nanUnstable` error. -/
theorem rdLoop_error_iff (step : ℕ → RDGrid × RDGrid → RDGrid × RDGrid)
    (nx ny spf : ℕ) (dtq : ℚ) :
    ∀ (rem i : ℕ) (s : RDState),
    (rdLoop step nx ny spf dtq i rem s = .error .nanUnstable ↔
      ∃ k < rem,
        hasNanIn nx ny (rdIterFrom step i (k + 1) (s.U, s.V)).1 = true) := by
  intro rem
  induction rem with
  | zero =>
    intro i s
    rw [rdLoop]
    constructor
    · intro h
      cases h
    · rintro ⟨k, hk, _⟩
      omega
  | succ rem ih =>
    intro i s
    rw [rdLoop]
    by_cases hn : hasNanIn nx ny (step i (s.U, s.V)).1 = true
    · rw [if_pos hn]
      constructor
      · intro _
        exact ⟨0, by omega, hn⟩
      · intro _
        rfl
    · rw [if_neg hn]
      rw [ih (i + 1)]
      constructor
      · rintro ⟨k, hk, hnan⟩
        exact ⟨k + 1, by omega, hnan⟩
      · rintro ⟨k, hk, hnan⟩
        cases k with
        | zero => exact absurd hnan hn
        | succ k => exact ⟨k, by omega, hnan⟩

/-- C4 (amended): the divergence check tests only the `U` field and only
for NaN.  A run fails with the divergence error exactly when some executed
step leaves a NaN cell in `U`; the failure discards all recorded frames
(the error result carries no output).  Cells that become infinite, or NaN
confined to `V`, do not trigger the abort (see the counterexample). -/
theorem claim_C4_nan_abort (p : RDParams) (omU omV : ℕ → ℕ → ℚ)
    (spotsO : ℕ → ℕ × ℕ) (nuU nuV : ℕ → ℕ → ℕ → ℚ) (sqrtQ : ℚ → ℚ)
    (hdt : ¬p.dt = 0) :
    solveRD p omU omV spotsO nuU nuV sqrtQ = .error .nanUnstable ↔
      ∃ k < rdNt p,
        hasNanIn p.width p.height
          (rdIterFrom (rdStep p nuU nuV sqrtQ) 0 (k + 1)
            ((rdInit p omU omV spotsO).1,
              (rdInit p omU omV spotsO).2)).1 = true := by
  unfold solveRD
  rw [if_neg hdt]
  rcases hloop : rdLoop (rdStep p nuU nuV sqrtQ) p.width p.height (rdSpf p)
      p.dt 0 (rdNt p) ⟨(rdInit p omU omV spotsO).1,
        (rdInit p omU omV spotsO).2, [], [], []⟩ with e | s2
  · rw [exceptMap_error]
    have hiff := rdLoop_error_iff (rdStep p nuU nuV sqrtQ) p.width p.height
      (rdSpf p) p.dt (rdNt p) 0 ⟨(rdInit p omU omV spotsO).1,
        (rdInit p omU omV spotsO).2, [], [], []⟩
    rw [hloop] at hiff
    cases e
    · exact ⟨fun _ => hiff.mp rfl, fun _ => rfl⟩
    · constructor
      · intro hcon
        cases hcon
      · intro hex
        exact absurd (hiff.mpr hex) (by simp)
  · rw [exceptMap_ok]
    have hiff := rdLoop_error_iff (rdStep p nuU nuV sqrtQ) p.width p.height
      (rdSpf p) p.dt (rdNt p) 0 ⟨(rdInit p omU omV spotsO).1,
        (rdInit p omU omV spotsO).2, [], [], []⟩
    rw [hloop] at hiff
    constructor
    · intro hcon
      cases hcon
    · intro hex
      exact absurd (hiff.mpr hex) (by simp)

def rdPC4 : RDParams :=
  { Du := 1, Dv := 1, F := 0, k := 0, sigma := 0, T := 1, dt := 1, dx := 0,
    width := 2, height := 2, current_u := some [[1, 0], [0, 1]],
    current_v := some [[1, 0], [0, 1]] }

/-- C4 counterexample: a run in which every cell of both fields becomes
non-finite (infinite) after the first step, yet the call completes and
returns those non-finite frames — the finiteness check does not abort on
Inf (it only tests `U` for NaN). -/
theorem claim_C4_counterexample :
    solveRD rdPC4 (fun _ _ => 0) (fun _ _ => 0) (fun _ => (0, 0))
      (fun _ _ _ => 0) (fun _ _ _ => 0) (fun q => q) =
      .ok ⟨[0],
        [[[FloatVal.ninf, FloatVal.inf], [FloatVal.inf, FloatVal.ninf]]],
        [[[FloatVal.ninf, FloatVal.inf], [FloatVal.inf, FloatVal.ninf]]]⟩ ∧
    ([[FloatVal.ninf, FloatVal.inf],
      [FloatVal.inf, FloatVal.ninf]].all fun row =>
        row.all fun v => !v.isFinite) = true := by
  exact ⟨by decide, by decide⟩

def rdPNan : RDParams :=
  { Du := 1, Dv := 1, F := 0, k := 0, sigma := 0, T := 1, dt := 1, dx := 0,
    width := 2, height := 2, current_u := some [[1, 1], [1, 1]],
    current_v := some [[0, 0], [0, 0]] }

/-- Witness for C4: at a concrete input whose first step makes `U` all NaN,
the characterisation applies and the run indeed aborts with the divergence
error. -/
theorem claim_C4_witness :
    (solveRD rdPNan (fun _ _ => 0) (fun _ _ => 0) (fun _ => (0, 0))
        (fun _ _ _ => 0) (fun _ _ _ => 0) (fun q => q) =
          .error .nanUnstable ↔
      ∃ k < rdNt rdPNan,
        hasNanIn rdPNan.width rdPNan.height
          (rdIterFrom (rdStep rdPNan (fun _ _ _ => 0) (fun _ _ _ => 0)
              (fun q => q)) 0 (k + 1)
            ((rdInit rdPNan (fun _ _ => 0) (fun _ _ => 0)
                (fun _ => (0, 0))).1,
              (rdInit rdPNan (fun _ _ => 0) (fun _ _ => 0)
                (fun _ => (0, 0))).2)).1 = true) ∧
    solveRD rdPNan (fun _ _ => 0) (fun _ _ => 0) (fun _ => (0, 0))
      (fun _ _ _ => 0) (fun _ _ _ => 0) (fun q => q) =
        .error .nanUnstable := by
  exact ⟨claim_C4_nan_abort rdPNan (fun _ _ => 0) (fun _ _ => 0)
    (fun _ => (0, 0)) (fun _ _ _ => 0) (fun _ _ _ => 0) (fun q => q)
    (by norm_num [rdPNan]), by decide⟩

/- ## Claim C8 -/

theorem heatEvol_iterate_noiseless (alpha dt dx sigma : ℝ) (g g2 : ℕ → ℝ)
    (hs : ¬0 < sigma) :
    ∀ (N : ℕ) (uc : List ℝ × ℕ),
    (heatEvol alpha dt dx sigma g)^[N] uc =
      (heatEvol alpha dt dx sigma g2)^[N] uc ∧
    ((heatEvol alpha dt dx sigma g)^[N] uc).2 = uc.2 := by
  intro N
  induction N with
  | zero => intro uc; exact ⟨rfl, rfl⟩
  | succ N ih =>
    intro uc
    rw [Function.iterate_succ_apply, Function.iterate_succ_apply,
      heatEvol_noiseless alpha dt dx sigma g uc hs,
      heatEvol_noiseless alpha dt dx sigma g2 uc hs]
    exact ⟨(ih _).1, (ih _).2⟩

theorem heatRun_noiseless_g (alpha dt dx sigma : ℝ) (g g2 : ℕ → ℝ)
    (si N : ℕ) (u0 : List ℝ) (hs : ¬0 < sigma) :
    heatRun alpha dt dx sigma g si N u0 =
      heatRun alpha dt dx sigma g2 si N u0 := by
  rw [heatRun_eq, heatRun_eq,
    heatAux_noiseless_g alpha dt dx sigma g g2 si hs,
    (heatEvol_iterate_noiseless alpha dt dx sigma g g2 hs N (u0, 0)).1]

/-- C8: with `sigma = 0` the heat solver is a pure function of its
parameters — the ambient random stream is neither read nor advanced (the
run consumes zero ambient samples), and the seed-42 stream of the "random"
initial condition is the same fixed stream on every call — so two runs with
identical parameters return bit-identical frame and energy sequences. -/
theorem claim_C8_determinism (g42 g g2 : ℕ → ℝ) (p : HeatParams)
    (hs : p.sigma = 0) :
    solveHeat g42 g p = solveHeat g42 g2 p ∧
    (∀ res, solveHeat g42 g p = .ok res → res.rngUsed = 0) := by
  have hns : ¬0 < p.sigma := by rw [hs]; exact lt_irrefl 0
  constructor
  · unfold solveHeat
    have hrun : ∀ (si N : ℕ) (u0 : List ℝ),
        heatRun p.alpha p.dt p.dx p.sigma g si N u0 =
          heatRun p.alpha p.dt p.dx p.sigma g2 si N u0 :=
      fun si N u0 => heatRun_noiseless_g p.alpha p.dt p.dx p.sigma g g2
        si N u0 hns
    simp only [hrun]
  · intro res h
    obtain ⟨u0, _, hres⟩ := solveHeat_ok_inv g42 g p res h
    rw [hres, heatRun_eq]
    exact (heatEvol_iterate_noiseless p.alpha p.dt p.dx p.sigma g g hns
      p.t_steps.toNat (setEndsZero u0, 0)).2

/-- Witness for C8: two concrete noiseless runs with different ambient
streams coincide and consume no ambient randomness. -/
theorem claim_C8_witness :
    solveHeat (fun _ => 1) (fun _ => 5) heatP2 =
      solveHeat (fun _ => 1) (fun _ => 9) heatP2 ∧
    ∃ res, solveHeat (fun _ => 1) (fun _ => 5) heatP2 = .ok res ∧
      res.rngUsed = 0 := by
  have hdet := claim_C8_determinism (fun _ => 1) (fun _ => 5) (fun _ => 9)
    heatP2 rfl
  refine ⟨hdet.1, ?_⟩
  have hsolve := solveHeat_ok_eq (fun _ => 1) (fun _ => 5) heatP2 _
    (by norm_num [heatP2]) (by norm_num [heatP2]) (by norm_num [heatP2])
    (by norm_num [heatP2]) rfl rfl rfl
  exact ⟨_, hsolve, hdet.2 _ hsolve⟩

/- ## Claim C7 -/

noncomputable def waveP7 : WaveParams :=
  { c := 1, damping := 0, sigma := 0, T := 2, dt := 1 / 20, dx := 1 / 10 }

theorem waveP7_nx : waveNx waveP7 = 101 := by
  rw [waveNx]
  norm_num [waveP7, pyTrunc]
  decide

theorem waveP7_nt : waveNt waveP7 = 40 := by
  rw [waveNt]
  norm_num [waveP7, pyTrunc]
  decide

theorem waveP7_u0 : waveU0 waveP7 =
    (linspace 0 waveP7.domain_len 101).map
      (fun t => Real.exp (-((t - waveP7.domain_len / 2) ^ 2) / 0.5)) := by
  rw [waveU0, waveP7_nx]
  rfl

theorem waveP7_checks :
    ¬(waveP7.dx = 0 ∨ waveP7.dt = 0) ∧
    ¬(pyTrunc (waveP7.domain_len / waveP7.dx) + 1 ≤ 0) ∧
    ¬(waveP7.c * waveP7.dt / waveP7.dx > 1) := by
  refine ⟨by norm_num [waveP7], ?_, by norm_num [waveP7]⟩
  norm_num [waveP7, pyTrunc]

/-- C7 counterexample: in the wave example scenario, Frame 0 is the raw
Gaussian bump; its left endpoint is `exp(-50) ≠ 0` because the Dirichlet
boundary zeroing is applied only from the first time step onward, so the
claim that every returned frame, including Frame 0, is exactly zero at both
endpoints is false. -/
theorem claim_C7_counterexample :
    ∃ res, solveWave (fun _ => 0) waveP7 = Except.ok res ∧
      res.frames.head? = some (waveU0 waveP7) ∧
      (waveU0 waveP7).getD 0 0 =
        Real.exp (-((0 - waveP7.domain_len / 2) ^ 2) / 0.5) ∧
      (waveU0 waveP7).getD 0 0 ≠ 0 := by
  obtain ⟨h1, h2, h3⟩ := waveP7_checks
  have hx0 : (linspace 0 waveP7.domain_len 101).getD 0 0 = 0 :=
    linspace_head 0 waveP7.domain_len 101 (by norm_num)
  have hlen : 0 < (linspace 0 waveP7.domain_len 101).length := by
    rw [linspace_length]
    norm_num
  have hval : (waveU0 waveP7).getD 0 0 =
      Real.exp (-((0 - waveP7.domain_len / 2) ^ 2) / 0.5) := by
    rw [waveP7_u0, List.getD_eq_getElem?_getD, List.getElem?_map,
      List.getElem?_eq_getElem hlen]
    have : (linspace 0 waveP7.domain_len 101)[0] = 0 := by
      rw [← List.getD_eq_getElem _ 0 hlen]
      exact hx0
    rw [this]
    rfl
  exact ⟨_, solveWave_ok (fun _ => 0) waveP7 h1 h2 h3, rfl, hval,
    hval ▸ ne_of_gt (Real.exp_pos _)⟩

/-- C7 (amended): the wave example scenario returns 41 frames; Frame 0 is
the centered Gaussian bump evaluated on the grid (its endpoints carry the
tiny nonzero tail values of the Gaussian), and every frame from index 1 on
has value exactly zero at both endpoints of the grid. -/
theorem claim_C7_wave_example (g : ℕ → ℝ) :
    ∃ res, solveWave g waveP7 = Except.ok res ∧
      res.frames.length = 41 ∧
      res.frames.head? = some ((linspace 0 waveP7.domain_len 101).map
        (fun t => Real.exp (-((t - waveP7.domain_len / 2) ^ 2) / 0.5))) ∧
      ∀ i, 1 ≤ i → i < res.frames.length →
        (res.frames.getD i []).getD 0 0 = 0 ∧
        (res.frames.getD i []).getD
          ((res.frames.getD i []).length - 1) 0 = 0 := by
  obtain ⟨h1, h2, h3⟩ := waveP7_checks
  refine ⟨_, solveWave_ok g waveP7 h1 h2 h3, ?_, ?_, ?_⟩
  · simp only [List.length_cons, waveAuxF_length, waveP7_nt]
  · show some (waveU0 waveP7) = _
    exact congrArg some waveP7_u0
  · intro i hi1 hilen
    simp only [List.length_cons, waveAuxF_length, waveP7_nt] at hilen
    have hu0len : (waveU0 waveP7).length = 101 := by
      rw [waveP7_u0, List.length_map, linspace_length]
    set aux := waveAuxF ((waveP7.c * waveP7.dt / waveP7.dx) ^ 2)
      (waveP7.damping * waveP7.dt) waveP7.sigma waveP7.dt g
      (waveNt waveP7) (waveU0 waveP7, waveUp0 waveP7, 0) with haux
    have hauxlen : aux.length = 40 := by
      rw [haux, waveAuxF_length, waveP7_nt]
    have hget : (waveU0 waveP7 :: aux).getD i [] = aux.getD (i - 1) [] := by
      rcases i with _ | j
      · omega
      · simp [List.getD_cons_succ]
    have hmem : aux.getD (i - 1) [] ∈ aux := by
      have : i - 1 < aux.length := by omega
      rw [List.getD_eq_getElem _ _ this]
      exact List.getElem_mem this
    have hprops := waveAuxF_frames _ _ _ _ g (waveNt waveP7)
      (waveU0 waveP7, waveUp0 waveP7, 0) _ hmem
    have hne : (waveU0 waveP7).length ≠ 0 := by
      rw [hu0len]
      norm_num
    show ((waveU0 waveP7 :: aux).getD i []).getD 0 0 = 0 ∧
      ((waveU0 waveP7 :: aux).getD i []).getD
        (((waveU0 waveP7 :: aux).getD i []).length - 1) 0 = 0
    rw [hget]
    exact (hprops.2 hne)

/- ## Claim C6: energy machinery -/

theorem sumSq_nonneg (u : List ℝ) : 0 ≤ sumSq u := by
  apply List.sum_nonneg
  intro x hx
  rw [List.mem_map] at hx
  obtain ⟨y, _, hy⟩ := hx
  rw [← hy]
  exact sq_nonneg y

theorem sumSq_range_map (f : ℕ → ℝ) (n : ℕ) :
    sumSq ((List.range n).map f) = ∑ i in Finset.range n, (f i) ^ 2 := by
  unfold sumSq
  rw [List.map_map]
  induction n with
  | zero => simp
  | succ n ih =>
    rw [List.range_succ, List.map_append, List.sum_append,
      Finset.sum_range_succ, ih]
    simp

theorem sumSq_eq_sum_getD (u : List ℝ) :
    sumSq u = ∑ i in Finset.range u.length, (u.getD i 0) ^ 2 := by
  induction u with
  | nil => simp [sumSq]
  | cons a t ih =>
    show (a ^ 2 + (t.map fun v => v ^ 2).sum) = _
    rw [List.length_cons, Finset.sum_range_succ']
    simp only [List.getD_cons_succ, List.getD_cons_zero]
    rw [show (t.map fun v => v ^ 2).sum = sumSq t from rfl, ih]
    ring

theorem convex_sq_three (r a b c : ℝ) (h0 : 0 ≤ r) (h2 : r ≤ 1 / 2) :
    ((1 - 2 * r) * a + r * b + r * c) ^ 2 ≤
      (1 - 2 * r) * a ^ 2 + r * b ^ 2 + r * c ^ 2 := by
  have hs : (0 : ℝ) ≤ 1 - 2 * r := by linarith
  nlinarith [mul_nonneg (mul_nonneg hs h0) (sq_nonneg (a - b)),
    mul_nonneg (mul_nonneg hs h0) (sq_nonneg (a - c)),
    mul_nonneg (mul_nonneg h0 h0) (sq_nonneg (b - c))]

theorem getD_zero_of_le (u : List ℝ) (i : ℕ) (h : u.length ≤ i) :
    u.getD i 0 = 0 := by
  rw [List.getD_eq_getElem?_getD, List.getElem?_eq_none h]
  rfl

theorem sumSq_heatStepU_le (alpha dt dx : ℝ) (u : List ℝ)
    (h0 : 0 ≤ alpha * dt / (dx * dx)) (h2 : alpha * dt / (dx * dx) ≤ 1 / 2) :
    sumSq (heatStepU alpha dt dx u) ≤ sumSq u := by
  set r := alpha * dt / (dx * dx) with hr
  set n := u.length with hn
  set w : ℕ → ℝ := fun j => u.getD j 0 ^ 2 with hw
  have hwnn : ∀ j, 0 ≤ w j := fun j => sq_nonneg _
  have hwn : w n = 0 := by
    rw [hw]
    simp only []
    rw [getD_zero_of_le u n (le_refl _)]
    norm_num
  have hstep : heatStepU alpha dt dx u = (List.range n).map (fun i =>
      if i = 0 ∨ i = n - 1 then 0
      else (1 - 2 * r) * u.getD i 0 + r * u.getD (i + 1) 0 +
        r * u.getD (i - 1) 0) := by
    unfold heatStepU
    apply List.map_congr_left
    intro i _
    split
    · rfl
    · rw [hr]
      ring
  rw [hstep, sumSq_range_map, sumSq_eq_sum_getD, ← hn]
  have hpt : ∀ i ∈ Finset.range n,
      (if i = 0 ∨ i = n - 1 then (0 : ℝ)
        else (1 - 2 * r) * u.getD i 0 + r * u.getD (i + 1) 0 +
          r * u.getD (i - 1) 0) ^ 2 ≤
      (if i = 0 ∨ i = n - 1 then 0 else (1 - 2 * r) * w i) +
        ((if i = 0 ∨ i = n - 1 then 0 else r * w (i + 1)) +
          (if i = 0 ∨ i = n - 1 then 0 else r * w (i - 1))) := by
    intro i _
    by_cases hb : i = 0 ∨ i = n - 1
    · simp [hb]
    · simp only [if_neg hb]
      have := convex_sq_three r (u.getD i 0) (u.getD (i + 1) 0)
        (u.getD (i - 1) 0) h0 h2
      rw [hw]
      calc ((1 - 2 * r) * u.getD i 0 + r * u.getD (i + 1) 0 +
          r * u.getD (i - 1) 0) ^ 2 ≤
          (1 - 2 * r) * u.getD i 0 ^ 2 + r * u.getD (i + 1) 0 ^ 2 +
            r * u.getD (i - 1) 0 ^ 2 := this
        _ = (1 - 2 * r) * u.getD i 0 ^ 2 +
            (r * u.getD (i + 1) 0 ^ 2 + r * u.getD (i - 1) 0 ^ 2) := by ring
  have hS : ∀ {m : ℕ}, m ≤ n → ∑ i in Finset.range m, w i ≤
      ∑ i in Finset.range n, w i := by
    intro m hm
    exact Finset.sum_le_sum_of_subset_of_nonneg
      (Finset.range_subset.mpr hm) (fun j _ _ => hwnn j)
  have hsum1 : ∑ i in Finset.range n,
      (if i = 0 ∨ i = n - 1 then (0 : ℝ) else (1 - 2 * r) * w i) ≤
      (1 - 2 * r) * ∑ i in Finset.range n, w i := by
    rw [Finset.mul_sum]
    apply Finset.sum_le_sum
    intro i _
    split
    · exact mul_nonneg (by linarith) (hwnn i)
    · exact le_refl _
  have hsum2 : ∑ i in Finset.range n,
      (if i = 0 ∨ i = n - 1 then (0 : ℝ) else r * w (i + 1)) ≤
      r * ∑ i in Finset.range n, w i := by
    have step1 : ∑ i in Finset.range n,
        (if i = 0 ∨ i = n - 1 then (0 : ℝ) else r * w (i + 1)) ≤
        ∑ i in Finset.range n, r * w (i + 1) := by
      apply Finset.sum_le_sum
      intro i _
      split
      · exact mul_nonneg h0 (hwnn _)
      · exact le_refl _
    have step2 : ∑ i in Finset.range n, r * w (i + 1) =
        r * ∑ i in Finset.range n, w (i + 1) := by
      rw [Finset.mul_sum]
    have step3 : ∑ i in Finset.range n, w (i + 1) ≤
        ∑ i in Finset.range n, w i := by
      have hsucc := Finset.sum_range_succ' w n
      have hsucc2 := Finset.sum_range_succ w n
      have heq : ∑ i in Finset.range n, w (i + 1) =
          ∑ i in Finset.range n, w i + w n - w 0 := by
        linarith [hsucc, hsucc2]
      linarith [hwnn 0, hwn]
    calc ∑ i in Finset.range n,
        (if i = 0 ∨ i = n - 1 then (0 : ℝ) else r * w (i + 1)) ≤
        ∑ i in Finset.range n, r * w (i + 1) := step1
      _ = r * ∑ i in Finset.range n, w (i + 1) := step2
      _ ≤ r * ∑ i in Finset.range n, w i :=
          mul_le_mul_of_nonneg_left step3 h0
  have hconv : ∑ i in Finset.range u.length, u.getD i 0 ^ 2 =
      ∑ i in Finset.range n, w i := rfl
  rw [hconv]
  clear_value n
  have hsum3 : ∑ i in Finset.range n,
      (if i = 0 ∨ i = n - 1 then (0 : ℝ) else r * w (i - 1)) ≤
      r * ∑ i in Finset.range n, w i := by
    cases n with
    | zero => simp
    | succ m =>
      rw [Finset.sum_range_succ']
      have hg0 : (if (0 : ℕ) = 0 ∨ (0 : ℕ) = m + 1 - 1 then (0 : ℝ)
          else r * w (0 - 1)) = 0 := by simp
      rw [hg0, add_zero]
      have hle : ∑ i in Finset.range m,
          (if i + 1 = 0 ∨ i + 1 = m + 1 - 1 then (0 : ℝ)
            else r * w (i + 1 - 1)) ≤
          ∑ i in Finset.range m, r * w i := by
        apply Finset.sum_le_sum
        intro i _
        have hsub : i + 1 - 1 = i := rfl
        rw [hsub]
        split
        · exact mul_nonneg h0 (hwnn _)
        · exact le_refl _
      have hlast : ∑ i in Finset.range m, w i ≤
          ∑ i in Finset.range (m + 1), w i := by
        rw [Finset.sum_range_succ]
        linarith [hwnn m]
      calc ∑ i in Finset.range m,
          (if i + 1 = 0 ∨ i + 1 = m + 1 - 1 then (0 : ℝ)
            else r * w (i + 1 - 1)) ≤
          ∑ i in Finset.range m, r * w i := hle
        _ = r * ∑ i in Finset.range m, w i := by rw [Finset.mul_sum]
        _ ≤ r * ∑ i in Finset.range (m + 1), w i :=
            mul_le_mul_of_nonneg_left hlast h0
  calc ∑ i in Finset.range n,
      (if i = 0 ∨ i = n - 1 then (0 : ℝ)
        else (1 - 2 * r) * u.getD i 0 + r * u.getD (i + 1) 0 +
          r * u.getD (i - 1) 0) ^ 2 ≤
      ∑ i in Finset.range n,
        ((if i = 0 ∨ i = n - 1 then (0 : ℝ) else (1 - 2 * r) * w i) +
          ((if i = 0 ∨ i = n - 1 then (0 : ℝ) else r * w (i + 1)) +
            (if i = 0 ∨ i = n - 1 then (0 : ℝ) else r * w (i - 1)))) :=
        Finset.sum_le_sum hpt
    _ = (∑ i in Finset.range n,
          (if i = 0 ∨ i = n - 1 then (0 : ℝ) else (1 - 2 * r) * w i)) +
        ((∑ i in Finset.range n,
          (if i = 0 ∨ i = n - 1 then (0 : ℝ) else r * w (i + 1))) +
         (∑ i in Finset.range n,
          (if i = 0 ∨ i = n - 1 then (0 : ℝ) else r * w (i - 1)))) := by
        rw [Finset.sum_add_distrib, Finset.sum_add_distrib]
    _ ≤ (1 - 2 * r) * (∑ i in Finset.range n, w i) +
        (r * (∑ i in Finset.range n, w i) +
          r * (∑ i in Finset.range n, w i)) :=
        add_le_add hsum1 (add_le_add hsum2 hsum3)
    _ = ∑ i in Finset.range n, w i := by ring

theorem heatAux_energy_chain (alpha dt dx sigma : ℝ) (g : ℕ → ℝ) (si : ℕ)
    (hs : ¬0 < sigma) (h0 : 0 ≤ alpha * dt / (dx * dx))
    (h2 : alpha * dt / (dx * dx) ≤ 1 / 2) (hdx : 0 ≤ dx) :
    ∀ (count n : ℕ) (uc : List ℝ × ℕ),
    List.Chain' (fun a b => b ≤ a)
      ((heatAux alpha dt dx sigma g si n count uc).map
        fun w => sumSq w * dx) ∧
    ∀ e ∈ (heatAux alpha dt dx sigma g si n count uc).map
        (fun w => sumSq w * dx), e ≤ sumSq uc.1 * dx := by
  intro count
  induction count with
  | zero =>
    intro n uc
    constructor
    · simp [heatAux]
    · intro e he
      simp [heatAux] at he
  | succ count ih =>
    intro n uc
    rw [heatAux, heatEvol_noiseless _ _ _ _ _ _ hs]
    have hstle : sumSq (heatStepU alpha dt dx uc.1) * dx ≤
        sumSq uc.1 * dx :=
      mul_le_mul_of_nonneg_right (sumSq_heatStepU_le _ _ _ _ h0 h2) hdx
    obtain ⟨ihc, ihb⟩ := ih (n + 1) (heatStepU alpha dt dx uc.1, uc.2)
    by_cases hrec : n % si = 0
    · rw [if_pos hrec]
      rw [List.singleton_append, List.map_cons]
      constructor
      · rw [List.chain'_cons']
        refine ⟨?_, ihc⟩
        intro y hy
        exact ihb y (List.mem_of_mem_head? hy)
      · intro e he
        rw [List.mem_cons] at he
        rcases he with he | he
        · rw [he]
          exact hstle
        · exact le_trans (ihb e he) hstle
    · rw [if_neg hrec]
      rw [List.nil_append]
      exact ⟨ihc, fun e he => le_trans (ihb e he) hstle⟩

noncomputable def heatP6 : HeatParams :=
  { alpha := 1 / 2, dt := 1 / 10000, dx := 1 / 100, t_steps := 50,
    domain := 1 }

theorem heatP6_nx : (⌊heatP6.domain / heatP6.dx⌋ + 1).toNat = 101 := by
  norm_num [heatP6]
  decide

/-- C6: the heat example scenario (`alpha=0.5, dt=1e-4, dx=1e-2,
t_steps=50, domain=1, init="pulse", sigma=0`, stability ratio exactly 0.5)
completes, returns 51 ≥ 2 frames of 101 points each, and its energy
sequence is non-negative and non-increasing. -/
theorem claim_C6_heat_example (g42 g : ℕ → ℝ) :
    ∃ res, solveHeat g42 g heatP6 = Except.ok res ∧
      res.frames.length = 51 ∧ 2 ≤ res.frames.length ∧
      (∀ f ∈ res.frames, f.length = 101) ∧
      (∀ e ∈ res.energy, 0 ≤ e) ∧
      List.Chain' (fun a b => b ≤ a) res.energy := by
  have hsolve := solveHeat_ok_eq g42 g heatP6 _
    (by norm_num [heatP6]) (by norm_num [heatP6]) (by norm_num [heatP6])
    (by norm_num [heatP6]) rfl rfl rfl
  obtain ⟨u0, hu0len, hres⟩ := solveHeat_ok_inv g42 g heatP6 _ hsolve
  refine ⟨_, hsolve, ?_⟩
  rw [hres, heatRun_eq]
  have hsi : (if heatP6.snapshot_interval ≤ 0 then 1
      else heatP6.snapshot_interval.toNat) = 1 := by
    norm_num [heatP6]
  have hts : heatP6.t_steps.toNat = 50 := by
    norm_num [heatP6]
    decide
  have hu0len2 : (setEndsZero u0).length = 101 := by
    rw [setEndsZero_length, hu0len, heatP6_nx]
  have hs : ¬0 < heatP6.sigma := by norm_num [heatP6]
  have h0 : 0 ≤ heatP6.alpha * heatP6.dt / (heatP6.dx * heatP6.dx) := by
    norm_num [heatP6]
  have h2 : heatP6.alpha * heatP6.dt / (heatP6.dx * heatP6.dx) ≤ 1 / 2 := by
    norm_num [heatP6]
  have hdx : (0 : ℝ) ≤ heatP6.dx := by norm_num [heatP6]
  rw [hsi, hts]
  refine ⟨?_, ?_, ?_, ?_, ?_⟩
  · rw [List.length_cons, heatAux_length, multiples_count]
  · rw [List.length_cons, heatAux_length, multiples_count]
    norm_num
  · intro f hf
    rw [List.mem_cons] at hf
    rcases hf with hf | hf
    · rw [hf]
      exact hu0len2
    · rw [heatAux_frames_length heatP6.alpha heatP6.dt heatP6.dx heatP6.sigma
        g 1 50 1 (setEndsZero u0, 0) f hf]
      exact hu0len2
  · intro e he
    rw [List.mem_cons] at he
    rcases he with he | he
    · rw [he]
      exact mul_nonneg (sumSq_nonneg _) hdx
    · rw [List.mem_map] at he
      obtain ⟨w, _, hw⟩ := he
      rw [← hw]
      exact mul_nonneg (sumSq_nonneg _) hdx
  · rw [List.chain'_cons']
    obtain ⟨hchain, hbound⟩ := heatAux_energy_chain heatP6.alpha heatP6.dt
      heatP6.dx heatP6.sigma g 1 hs h0 h2 hdx 50 1 (setEndsZero u0, 0)
    refine ⟨?_, hchain⟩
    intro y hy
    exact hbound y (List.mem_of_mem_head? hy)
